import Mathlib

/-!
Shallow embedding of the progressive-growing GAN implementation
(`layers.py`, `networks.py`) of the GenerativeSkinLesion repository.

Embedding conventions:

* Real (IEEE float) arithmetic is embedded as exact rational arithmetic over
  `ℚ`; `sqrt` is embedded as the computable `Rat.sqrt` (exact on perfect
  squares, a deterministic stand-in elsewhere).  The float literal `0.2` of
  `LeakyReLU(0.2)` is embedded as `1/5` and `1e-8` as `1/10^8`.
* A 4-D torch tensor of shape `(N, C, H, W)` is embedded as the shape
  together with a total data function; all operations read only in-range
  indices of their argument, and every stated equality between constructed
  tensors also holds at out-of-range indices because both sides are built by
  the same reading discipline.
* Weight initialisation (`kaiming_normal_`) is an external RNG effect: every
  network operation that creates fresh layers takes a weight stream
  `ws : ℕ → ConvW` and the state carries a counter of consumed draws.
* Python-level typing behaviour that matters to the claims is modelled
  explicitly: `/` on ints yields a float (`PyNum.floatN`), and torch shape
  arguments reject floats; `x == y` between a `torch.Size` and an `int`
  yields the Python bool `False`, and `len` of a bool is a `TypeError`.
-/

/-- A 4-D tensor `(N, C, H, W)` over exact rationals. -/
structure Tensor4 where
  n : ℕ
  c : ℕ
  h : ℕ
  w : ℕ
  data : ℕ → ℕ → ℕ → ℕ → ℚ

/-- `x.mul(s)`: elementwise multiplication by a scalar (torch `Tensor.mul`). -/
def tmul (x : Tensor4) (s : ℚ) : Tensor4 :=
  { x with data := fun n c i j => x.data n c i j * s }

/-- `x + y`: elementwise addition.  Both operands have equal shapes at every
use site in the source (the two branches of a fade-in), so the result takes
the shape of the first operand. -/
def tadd (x y : Tensor4) : Tensor4 :=
  { x with data := fun n c i j => x.data n c i j + y.data n c i j }

/-- Shape equality of two tensors. -/
def sameShape (x y : Tensor4) : Prop :=
  x.n = y.n ∧ x.c = y.c ∧ x.h = y.h ∧ x.w = y.w

instance (x y : Tensor4) : Decidable (sameShape x y) := by
  unfold sameShape; infer_instance

theorem Tensor4.eq_of_fields {x y : Tensor4} (hn : x.n = y.n) (hc : x.c = y.c)
    (hh : x.h = y.h) (hw : x.w = y.w) (hd : x.data = y.data) : x = y := by
  cases x; cases y; cases hn; cases hc; cases hh; cases hw; cases hd; rfl

/-! ### `Fadein` (layers.py 75-86) -/

/-- `Fadein.forward`: `x[0].mul(1.0-self.alpha) + x[1].mul(self.alpha)`. -/
def Fadein.forward (alpha : ℚ) (old fresh : Tensor4) : Tensor4 :=
  tadd (tmul old (1 - alpha)) (tmul fresh alpha)

/-- `Fadein.update_alpha`: `alpha += delta; alpha = max(0, min(alpha, 1.0))`. -/
def Fadein.update_alpha (alpha delta : ℚ) : ℚ :=
  max 0 (min (alpha + delta) 1)

/-! ### Equalized units (layers.py 8-31) -/

/-- Weight tensor of a convolution, indexed (out-channel, in-channel, row, col). -/
abbrev ConvW := ℕ → ℕ → ℕ → ℕ → ℚ

structure ConvCfg where
  inF : ℕ
  outF : ℕ
  k : ℕ
  stride : ℕ
  pad : ℕ

/-- Read with zero padding of width `pad` (the border semantics of
`nn.Conv2d(..., padding)`). -/
def padRead (x : Tensor4) (pad n c i j : ℕ) : ℚ :=
  if pad ≤ i ∧ i - pad < x.h ∧ pad ≤ j ∧ j - pad < x.w then
    x.data n c (i - pad) (j - pad)
  else 0

/-- Output extent of a convolution along one spatial dimension. -/
def convOut (len pad k stride : ℕ) : ℕ := (len + 2 * pad - k) / stride + 1

/-- Plain 2-D convolution with bias (`nn.Conv2d` forward). -/
def conv2d (cfg : ConvCfg) (wgt : ConvW) (bias : ℕ → ℚ) (x : Tensor4) : Tensor4 where
  n := x.n
  c := cfg.outF
  h := convOut x.h cfg.pad cfg.k cfg.stride
  w := convOut x.w cfg.pad cfg.k cfg.stride
  data := fun n o i j =>
    bias o + ∑ c ∈ Finset.range cfg.inF, ∑ p ∈ Finset.range cfg.k,
      ∑ q ∈ Finset.range cfg.k,
        wgt o c p q * padRead x cfg.pad n c (i * cfg.stride + p) (j * cfg.stride + q)

/-- `weight.pow(2.).mean()` over all weight elements of a convolution. -/
def meanSqConv (cfg : ConvCfg) (wgt : ConvW) : ℚ :=
  (∑ o ∈ Finset.range cfg.outF, ∑ c ∈ Finset.range cfg.inF,
      ∑ p ∈ Finset.range cfg.k, ∑ q ∈ Finset.range cfg.k, wgt o c p q ^ 2)
    / (cfg.outF * cfg.inF * cfg.k * cfg.k)

/-- `weight.pow(2.).mean()` over all weight elements of an affine unit. -/
def meanSqLin (inF outF : ℕ) (wgt : ℕ → ℕ → ℚ) : ℚ :=
  (∑ o ∈ Finset.range outF, ∑ f ∈ Finset.range inF, wgt o f ^ 2) / (outF * inF)

/-! ### Minibatch standard deviation (layers.py 37-51)

`forward` computes `M = x.size(0) / G` with Python-3 true division, so `M`
is a Python float; `torch.reshape` (like every torch shape argument) rejects
non-int sizes, which the model reflects through `PyNum.toSize`. -/

/-- A Python number: an `int` or a `float`. -/
inductive PyNum where
  | intN (z : ℤ)
  | floatN (q : ℚ)

/-- A torch size argument must be a Python int; floats (even integral ones)
raise `TypeError`, modelled as `none`. -/
def PyNum.toSize : PyNum → Option ℤ
  | .intN z => some z
  | .floatN _ => none

/-- Python-3 `/` on integers: true division, always a float. -/
def pyTrueDiv (a b : ℤ) : PyNum := .floatN ((a : ℚ) / (b : ℚ))

/-- A 5-D tensor `(G, M, C, H, W)`. -/
structure Tensor5 where
  g : ℕ
  m : ℕ
  c : ℕ
  h : ℕ
  w : ℕ
  data : ℕ → ℕ → ℕ → ℕ → ℕ → ℚ

/-- Number of elements of a 4-D tensor. -/
def numel (x : Tensor4) : ℕ := x.n * x.c * x.h * x.w

/-- Row-major flat read of a 4-D tensor. -/
def flatRead (x : Tensor4) (n f : ℕ) : ℚ :=
  x.data n (f / (x.h * x.w)) (f % (x.h * x.w) / x.w) (f % x.w)

/-- `torch.reshape(x, (a, b, c, d, e))`: requires integer sizes whose product
is the element count; row-major relabelling of the same storage. -/
def torchReshape5 (x : Tensor4) (shape : List PyNum) : Option Tensor5 := do
  let dims ← shape.mapM PyNum.toSize
  match dims with
  | [a, b, c, d, e] =>
    if a.toNat * b.toNat * c.toNat * d.toNat * e.toNat = numel x
        ∧ 0 ≤ a ∧ 0 ≤ b ∧ 0 ≤ c ∧ 0 ≤ d ∧ 0 ≤ e then
      some ⟨a.toNat, b.toNat, c.toNat, d.toNat, e.toNat, fun g m ch i j =>
        let idx := ((((g * b.toNat + m) * c.toNat + ch) * d.toNat + i) * e.toNat + j)
        flatRead x (idx / (x.c * x.h * x.w)) (idx % (x.c * x.h * x.w))⟩
    else none
  | _ => none

/-- `y - torch.mean(y, dim=0, keepdim=True)`. -/
def centerOverGroup (y : Tensor5) : Tensor5 :=
  { y with data := fun g m c i j =>
      y.data g m c i j - (∑ g2 ∈ Finset.range y.g, y.data g2 m c i j) / y.g }

/-- `torch.mean(y.pow(2.), dim=0)`: variance over the group axis. -/
def varOverGroup (y : Tensor5) : Tensor4 :=
  ⟨y.m, y.c, y.h, y.w, fun m c i j =>
    (∑ g ∈ Finset.range y.g, y.data g m c i j ^ 2) / y.g⟩

/-- `torch.sqrt(y + 1e-8)` elementwise. -/
def sqrtEps (y : Tensor4) : Tensor4 :=
  { y with data := fun m c i j => Rat.sqrt (y.data m c i j + 1 / 100000000) }

/-- `torch.mean(y.view(M,-1), dim=1).view(M,1,1,1)`: the view again takes the
float `M` as a size argument. -/
def groupScalarView (y : Tensor4) (m : PyNum) : Option Tensor4 := do
  let _ ← m.toSize
  some ⟨y.n, 1, 1, 1, fun g _ _ _ =>
    (∑ f ∈ Finset.range (y.c * y.h * y.w), flatRead y g f) / (y.c * y.h * y.w)⟩

/-- `y.repeat(G,1,H,W)` on a `(M,1,1,1)` tensor followed by broadcast over the
spatial extent: sample `g*M + m` receives group `m`'s scalar. -/
def repeatGroup (y : Tensor4) (g : ℤ) (h w : ℕ) : Tensor4 :=
  ⟨y.n * g.toNat, 1, h, w, fun n _ _ _ => y.data (n % y.n) 0 0 0⟩

/-- `torch.cat([x, y], 1)`: append `y`'s single channel after `x`'s channels. -/
def catChannel (x y : Tensor4) : Tensor4 :=
  ⟨x.n, x.c + 1, x.h, x.w, fun n c i j =>
    if c < x.c then x.data n c i j else y.data n 0 i j⟩

/-- `MinibatchStddev.forward` (layers.py 41-51), line by line.  `M` is
computed by Python-3 true division and is therefore a float, which
`torch.reshape` rejects. -/
def MinibatchStddev.forward (group_size : ℕ) (x : Tensor4) : Option Tensor4 := do
  let g : ℤ := min (group_size : ℤ) (x.n : ℤ)
  let m : PyNum := pyTrueDiv x.n g
  let y1 ← torchReshape5 x [.intN g, m, .intN x.c, .intN x.h, .intN x.w]
  let y2 := centerOverGroup y1
  let y3 := varOverGroup y2
  let y4 := sqrtEps y3
  let y5 ← groupScalarView y4 m
  let y6 := repeatGroup y5 g x.h x.w
  some (catChannel x y6)

/-! ### The remaining layers (layers.py 57-102) -/

/-- A single layer instance, with its constructed parameter state. -/
inductive Leaf where
  | econvL (cfg : ConvCfg) (wgt : ConvW) (bias : ℕ → ℚ) (scale : ℚ)
  | elinearL (inF outF : ℕ) (wgt : ℕ → ℕ → ℚ) (bias : ℕ → ℚ) (scale : ℚ)
  | lreluL (slope : ℚ)
  | pixelnormL
  | upsampleL
  | avgpoolL
  | mbstddevL (group_size : ℕ)

/-- `EqualizedConv2d.__init__`: compute `scale = sqrt(mean(weight**2))` once
from the sampled weights, rewrite the stored weights as `weight/scale`, zero
the bias. -/
def EqualizedConv2d (cfg : ConvCfg) (wgt : ConvW) : Leaf :=
  let scale := Rat.sqrt (meanSqConv cfg wgt)
  .econvL cfg (fun o c p q => wgt o c p q / scale) (fun _ => 0) scale

/-- `EqualizedLinear.__init__`, same discipline for the affine unit. -/
def EqualizedLinear (inF outF : ℕ) (wgt : ℕ → ℕ → ℚ) : Leaf :=
  let scale := Rat.sqrt (meanSqLin inF outF wgt)
  .elinearL inF outF (fun o f => wgt o f / scale) (fun _ => 0) scale

/-- `nn.Linear` forward on the flattened `(N, -1)` view. -/
def linearForward (inF outF : ℕ) (wgt : ℕ → ℕ → ℚ) (bias : ℕ → ℚ)
    (x : Tensor4) : Tensor4 :=
  ⟨x.n, outF, 1, 1, fun n o _ _ =>
    bias o + ∑ f ∈ Finset.range inF, wgt o f * flatRead x n f⟩

/-- `nn.LeakyReLU(slope)` elementwise. -/
def leakyReLU (slope : ℚ) (x : Tensor4) : Tensor4 :=
  { x with data := fun n c i j =>
      if x.data n c i j < 0 then slope * x.data n c i j else x.data n c i j }

/-- `PixelwiseNorm.forward`: `x / sqrt(mean(x**2, dim=1, keepdim) + 1e-8)`. -/
def PixelwiseNorm.forward (x : Tensor4) : Tensor4 :=
  { x with data := fun n c i j =>
      x.data n c i j /
        Rat.sqrt ((∑ ch ∈ Finset.range x.c, x.data n ch i j ^ 2) / x.c
          + 1 / 100000000) }

/-- `Upsample.forward`: nearest-neighbour interpolation, scale factor 2. -/
def Upsample.forward (x : Tensor4) : Tensor4 :=
  ⟨x.n, x.c, 2 * x.h, 2 * x.w, fun n c i j => x.data n c (i / 2) (j / 2)⟩

/-- `nn.AvgPool2d(kernel_size=2)`. -/
def avgPool2 (x : Tensor4) : Tensor4 :=
  ⟨x.n, x.c, x.h / 2, x.w / 2, fun n c i j =>
    (x.data n c (2 * i) (2 * j) + x.data n c (2 * i) (2 * j + 1)
      + x.data n c (2 * i + 1) (2 * j) + x.data n c (2 * i + 1) (2 * j + 1)) / 4⟩

/-- Forward evaluation of one layer.  Only `MinibatchStddev` can fail (see
`MinibatchStddev.forward`); every other layer is total. -/
def evalLeaf : Leaf → Tensor4 → Option Tensor4
  | .econvL cfg wgt bias scale, x => some (conv2d cfg wgt bias (tmul x scale))
  | .elinearL inF outF wgt bias scale, x =>
      some (linearForward inF outF wgt bias (tmul x scale))
  | .lreluL slope, x => some (leakyReLU slope x)
  | .pixelnormL, x => some (PixelwiseNorm.forward x)
  | .upsampleL, x => some (Upsample.forward x)
  | .avgpoolL, x => some (avgPool2 x)
  | .mbstddevL g, x => MinibatchStddev.forward g x

/-! ### Stage-count and channel-width formulas (networks.py 54-56, 135-137) -/

/-- `int(math.log2(size/4)) + 1`; `math.log2` is exact on powers of two and
`int` truncates, so on the power-of-two domain this is `Nat.log2`. -/
def stagesOf (size : ℕ) : ℕ := Nat.log2 (size / 4) + 1

/-- Generator channel schedule: `min(int(8192 / 2.0 ** stage), 512)`
(networks.py line 56); float division by a power of two is exact and `int`
truncates, i.e. floor division. -/
def Generator.nf (stage : ℕ) : ℕ := min (8192 / 2 ^ stage) 512

/-- Discriminator channel schedule (networks.py line 137), textually the same
lambda. -/
def Discriminator.nf (stage : ℕ) : ℕ := min (8192 / 2 ^ stage) 512

/-! ### Claim C4: the blending primitive -/

/-- `Rat.sqrt q ≠ 0` when `0 < q` (the stored equalized scale of a unit with
not-all-zero weights is nonzero). -/
theorem ratSqrt_ne_zero {q : ℚ} (hq : 0 < q) : Rat.sqrt q ≠ 0 := by
  have hnum : 0 < q.num := Rat.num_pos.mpr hq
  have h1 : 0 < Nat.sqrt q.num.toNat := Nat.sqrt_pos.mpr (by omega)
  have hsn : Int.sqrt q.num ≠ 0 := by
    simp only [Int.sqrt]
    exact Int.natCast_ne_zero.mpr (by omega)
  have hsd : Nat.sqrt q.den ≠ 0 := by
    have := Nat.sqrt_pos.mpr q.den_pos
    omega
  simpa only [Rat.sqrt] using (Rat.mkRat_ne_zero hsd).mpr hsn

/-- C4: `Fadein` evaluation of an `(old, new)` pair returns
`old*(1-alpha) + new*alpha`, with `Fadein(0) = old` and (for shape-matched
branches, as the network always produces) `Fadein(1) = new` exactly;
`update_alpha` clamps `alpha + delta` into `[0, 1]`, for a delta of any sign
and magnitude, so the factor is in `[0, 1]` after every update. -/
theorem fadein_blend_and_clamp (old fresh : Tensor4) (alpha delta : ℚ) :
    Fadein.forward alpha old fresh = tadd (tmul old (1 - alpha)) (tmul fresh alpha)
    ∧ Fadein.forward 0 old fresh = old
    ∧ (sameShape old fresh → Fadein.forward 1 old fresh = fresh)
    ∧ Fadein.update_alpha alpha delta = max 0 (min (alpha + delta) 1)
    ∧ 0 ≤ Fadein.update_alpha alpha delta
    ∧ Fadein.update_alpha alpha delta ≤ 1 := by
  refine ⟨rfl, ?_, ?_, rfl, le_max_left _ _, ?_⟩
  · refine Tensor4.eq_of_fields rfl rfl rfl rfl ?_
    funext n c i j
    show old.data n c i j * (1 - 0) + fresh.data n c i j * 0 = old.data n c i j
    ring
  · rintro ⟨hn, hc, hh, hw⟩
    refine Tensor4.eq_of_fields ?_ ?_ ?_ ?_ ?_
    · exact hn
    · exact hc
    · exact hh
    · exact hw
    · funext n c i j
      show old.data n c i j * (1 - 1) + fresh.data n c i j * 1 = fresh.data n c i j
      ring
  · exact max_le (by norm_num) (min_le_right _ _)

def c4old : Tensor4 := ⟨1, 1, 1, 1, fun _ _ _ _ => 3⟩

def c4fresh : Tensor4 := ⟨1, 1, 1, 1, fun _ _ _ _ => 5⟩

/-- C4 witness: the theorem applied at a concrete shape-matched pair, with
the inner shape hypothesis discharged by `decide`. -/
theorem fadein_blend_and_clamp_witness :
    Fadein.forward 1 c4old c4fresh = c4fresh :=
  (fadein_blend_and_clamp c4old c4fresh 0 0).2.2.1 (by decide)

/-! ### Claim C7: equalized-scale units -/

/-- `padRead` commutes with input scaling. -/
theorem padRead_tmul (x : Tensor4) (s : ℚ) (pad n c i j : ℕ) :
    padRead (tmul x s) pad n c i j = padRead x pad n c i j * s := by
  simp only [padRead, tmul]
  split <;> ring

/-- C7: for both equalized units, the constructed unit (scale computed once
from the sampled weights, stored weights rewritten as `weight/scale`, zero
bias) has, at initialization, exactly the effective map of the original,
unscaled weights: the forward pass multiplies the input by the scale and the
two rescalings cancel.  The hypotheses say the Kaiming-normal samples were
not all zero (an almost-sure property of the sampler). -/
theorem equalized_effective_map (cfg : ConvCfg) (wgt : ConvW) (x : Tensor4)
    (inF outF : ℕ) (lw : ℕ → ℕ → ℚ) (y : Tensor4)
    (hc : 0 < meanSqConv cfg wgt) (hl : 0 < meanSqLin inF outF lw) :
    evalLeaf (EqualizedConv2d cfg wgt) x = some (conv2d cfg wgt (fun _ => 0) x)
    ∧ evalLeaf (EqualizedLinear inF outF lw) y
        = some (linearForward inF outF lw (fun _ => 0) y) := by
  have hcs : Rat.sqrt (meanSqConv cfg wgt) ≠ 0 := ratSqrt_ne_zero hc
  have hls : Rat.sqrt (meanSqLin inF outF lw) ≠ 0 := ratSqrt_ne_zero hl
  constructor
  · simp only [evalLeaf, EqualizedConv2d, Option.some.injEq]
    refine Tensor4.eq_of_fields rfl rfl rfl rfl ?_
    funext n o i j
    simp only [conv2d]
    congr 1
    refine Finset.sum_congr rfl fun c _ => Finset.sum_congr rfl fun p _ =>
      Finset.sum_congr rfl fun q _ => ?_
    rw [padRead_tmul]
    field_simp
    ring
  · simp only [evalLeaf, EqualizedLinear, Option.some.injEq]
    refine Tensor4.eq_of_fields rfl rfl rfl rfl ?_
    funext n o i j
    simp only [linearForward]
    congr 1
    refine Finset.sum_congr rfl fun f _ => ?_
    have hfr : flatRead (tmul y (Rat.sqrt (meanSqLin inF outF lw))) n f
        = flatRead y n f * Rat.sqrt (meanSqLin inF outF lw) := rfl
    rw [hfr]
    field_simp
    ring

def c7cfg : ConvCfg := ⟨1, 1, 1, 1, 0⟩

def c7w : ConvW := fun _ _ _ _ => 2

def c7lw : ℕ → ℕ → ℚ := fun _ _ => 2

def c7x : Tensor4 := ⟨1, 1, 1, 1, fun _ _ _ _ => 3⟩

/-- C7 witness: the theorem applied to concrete 1×1 units with weight 2,
both nonzero-mean-square hypotheses discharged by `decide`. -/
theorem equalized_effective_map_witness :
    evalLeaf (EqualizedConv2d c7cfg c7w) c7x
      = some (conv2d c7cfg c7w (fun _ => 0) c7x) :=
  (equalized_effective_map c7cfg c7w c7x 1 1 c7lw c7x
    (by norm_num [meanSqConv, c7cfg, c7w, Finset.sum_range_succ])
    (by norm_num [meanSqLin, c7lw, Finset.sum_range_succ])).1

/-! ### Claim C5: minibatch standard deviation -/

def c5x : Tensor4 := ⟨8, 1, 1, 1, fun _ _ _ _ => 1⟩

/-- C5 (code bug): on a perfectly valid batch of `N = 8` identical samples
with the default `group_size = 4` (`N` divisible by `G`), the layer does not
return the claimed `(N, C+1, H, W)` tensor: `M = x.size(0) / G` is Python-3
true division, so `M` is the float `2.0` and `torch.reshape` raises
`TypeError` (modelled as `none`) on every call. -/
theorem minibatchStddev_crashes_on_valid_batch :
    MinibatchStddev.forward 4 c5x = none := rfl

/-! ### Claim C6: generator forward input validation -/

inductive PyErr where
  | assertionError
  | typeError
deriving DecidableEq

inductive PyVal where
  | sizeV (l : List ℕ)
  | intV (z : ℤ)
  | boolV (b : Bool)

/-- Python `==` on the value kinds appearing in `Generator.forward`: a
`torch.Size` compared with an `int` is `False` (no error, just unequal
types). -/
def pyEq : PyVal → PyVal → PyVal
  | .sizeV a, .sizeV b => .boolV (decide (a = b))
  | .intV a, .intV b => .boolV (decide (a = b))
  | _, _ => .boolV false

/-- Python `len`: defined on sizes/tuples, a `TypeError` on bools and ints. -/
def pyLen : PyVal → Except PyErr ℕ
  | .sizeV l => .ok l.length
  | _ => .error .typeError

/-- `Generator.forward` (networks.py 119-123) at the level of input shapes:
`assert len(x.size()) == 2 or len(x.size()) == 4, ...` followed by
`if len(x.size() == 2): x = x.view(x.size(0), x.size(1), 1, 1)`.
Note the misplaced parenthesis in the source: the `if` computes
`len(x.size() == 2)`, i.e. `len` of a bool. -/
def Generator.forward (shape : List ℕ) : Except PyErr (List ℕ) := do
  let d ← pyLen (.sizeV shape)
  if d = 2 ∨ d = 4 then
    let cond ← pyLen (pyEq (.sizeV shape) (.intV 2))
    if cond ≠ 0 then
      match shape with
      | [a, b] => pure [a, b, 1, 1]
      | _ => pure shape
    else pure shape
  else throw .assertionError

/-- C6 (code bug): a 2-D latent batch and a 4-D batch both pass the assert
but then hit `len(x.size() == 2)` — `len` of the bool `False` — so every
valid input raises `TypeError` instead of evaluating; only the non-2D/4D
input produces the claimed precondition failure. -/
theorem generator_forward_crashes_on_valid_input :
    Generator.forward [1, 512] = .error .typeError
    ∧ Generator.forward [2, 3, 8, 8] = .error .typeError
    ∧ Generator.forward [4, 3, 2] = .error .assertionError :=
  ⟨rfl, rfl, rfl⟩

/-! ### Claim C8: stage-count and channel-width formulas -/

/-- C8: `totalStages = log2(targetSize/4) + 1` on the power-of-two domain
(`totalStages(256) = 7`, `totalStages(4) = 1`), and generator and
discriminator use the identical channel-width formula
`nf(stage) = min(floor(8192 / 2^stage), 512)`. -/
theorem stagesOf_two_pow (k : ℕ) : stagesOf (2 ^ (k + 2)) = k + 1 := by
  have h4 : (2 : ℕ) ^ (k + 2) / 4 = 2 ^ k := by
    have : (2 : ℕ) ^ (k + 2) = 2 ^ k * 4 := by ring
    rw [this, Nat.mul_div_cancel _ (by norm_num)]
  simp only [stagesOf, h4, Nat.log2_eq_log_two, Nat.log_pow (by norm_num : 1 < 2)]

theorem stagesOf_8 : stagesOf 8 = 2 := by
  have h := stagesOf_two_pow 1
  norm_num at h
  exact h

theorem stagesOf_16 : stagesOf 16 = 3 := by
  have h := stagesOf_two_pow 2
  norm_num at h
  exact h

theorem stage_and_channel_formulas :
    stagesOf 256 = 7 ∧ stagesOf 4 = 1
    ∧ (∀ k : ℕ, stagesOf (2 ^ (k + 2)) = k + 1)
    ∧ (∀ s : ℕ, Generator.nf s = Discriminator.nf s)
    ∧ (∀ s : ℕ, Generator.nf s = min (8192 / 2 ^ s) 512) := by
  refine ⟨?_, ?_, stagesOf_two_pow, fun _ => rfl, fun _ => rfl⟩
  · have h := stagesOf_two_pow 6
    norm_num at h
    simpa using h
  · have h := stagesOf_two_pow 0
    norm_num at h
    simpa using h

/-! ### The module registry (networks.py 17-41)

PyTorch module names never contain a dot (enforced by `add_module`), so a
`state_dict` key `"a.b.c"` is represented losslessly as the path of its
components; `key.split('.')[0]` is the head of the path.  Each distinct
constructor of `BName` renders to a distinct Python name string. -/

/-- A module name, as registered by `add_module`. -/
inductive BName where
  | stage (k : ℕ)
  | to_rgb
  | from_rgb
  | concat_block
  | fadein_b
  | old_upsample
  | old_to_rgb
  | old_downsample
  | old_from_rgb
  | new_block
  | new_to_rgb
  | new_from_rgb
  | idx (i : ℕ)
  | convSub
  | linearSub
  | weightP
  | biasP
  | layer1N
  | layer2N
deriving DecidableEq

/-- The Python name string a `BName` denotes. -/
def BName.render : BName → String
  | .stage k => "stage_" ++ toString k
  | .to_rgb => "to_rgb"
  | .from_rgb => "from_rgb"
  | .concat_block => "concat_block"
  | .fadein_b => "fadein"
  | .old_upsample => "old_upsample"
  | .old_to_rgb => "old_to_rgb"
  | .old_downsample => "old_downsample"
  | .old_from_rgb => "old_from_rgb"
  | .new_block => "new_block"
  | .new_to_rgb => "new_to_rgb"
  | .new_from_rgb => "new_from_rgb"
  | .idx i => toString i
  | .convSub => "conv"
  | .linearSub => "linear"
  | .weightP => "weight"
  | .biasP => "bias"
  | .layer1N => "layer1"
  | .layer2N => "layer2"

/-- A module one level below the top registry: either a single layer or an
`nn.Sequential` of positionally named layers (as the block factories build). -/
inductive Mod1 where
  | leafM (l : Leaf)
  | blockM (ls : List Leaf)

/-- A top-level registry entry: a plain block, a `ConcatTable` whose two
branches are `nn.Sequential`s of named sub-modules, or a `Fadein`. -/
inductive TopMod where
  | sub (m : Mod1)
  | concatT (layer1 layer2 : List (BName × Mod1))
  | fadeinM (alpha : ℚ)

abbrev Registry := List (BName × TopMod)

/-- `state_dict` key paths of a single layer (its parameters). -/
def leafKeys : Leaf → List (List BName)
  | .econvL _ _ _ _ => [[.convSub, .weightP], [.convSub, .biasP]]
  | .elinearL _ _ _ _ _ => [[.linearSub, .weightP], [.linearSub, .biasP]]
  | _ => []

/-- `state_dict` key paths of a `Mod1`. -/
def mod1Keys : Mod1 → List (List BName)
  | .leafM l => leafKeys l
  | .blockM ls => ls.enum.flatMap fun p => (leafKeys p.2).map (fun path => .idx p.1 :: path)

/-- `state_dict` key paths of a `ConcatTable` branch. -/
def branchKeys (br : List (BName × Mod1)) : List (List BName) :=
  br.flatMap fun c => (mod1Keys c.2).map (fun path => c.1 :: path)

/-- `state_dict` key paths of a top-level module. -/
def modKeys : TopMod → List (List BName)
  | .sub m => mod1Keys m
  | .concatT la lb =>
      (branchKeys la).map (fun p => .layer1N :: p)
        ++ (branchKeys lb).map (fun p => .layer2N :: p)
  | .fadeinM _ => []

/-- `model.state_dict().keys()`, as (head, tail-path) pairs in registration
order. -/
def registryKeys (cs : Registry) : List (BName × List BName) :=
  cs.flatMap fun c => (modKeys c.2).map (fun p => (c.1, p))

/-- `get_module_names` (networks.py 35-41): the distinct first components of
the state-dict keys, in order of first occurrence. -/
def get_module_names (cs : Registry) : List BName :=
  (registryKeys cs).foldl (fun acc k => if k.1 ∈ acc then acc else acc ++ [k.1]) []

/-- `deepcopy_exclude(module, exclude_name)` (networks.py 26-33): keep the
children whose name is not in the list; `load_state_dict` from the module's
own `state_dict` leaves the parameters unchanged. -/
def deepcopy_exclude (cs : Registry) (excl : List BName) : Registry :=
  cs.filter fun c => decide (c.1 ∉ excl)

/-- `deepcopy_layers(module, layer_name)` with a list argument (as called in
`grow_network`): `name in layer_name` is list membership. -/
def deepcopy_layersL (cs : Registry) (names : List BName) : Registry :=
  cs.filter fun c => decide (c.1 ∈ names)

/-- Contiguous-subsequence test on character lists. -/
def containsSeq (needle : List Char) : List Char → Bool
  | [] => needle.isEmpty
  | c :: t => needle.isPrefixOf (c :: t) || containsSeq needle t

/-- Python `in` on a string argument is a substring test. -/
def substrOf (n : BName) (s : String) : Bool :=
  containsSeq n.render.toList s.toList

/-- `deepcopy_layers(module, layer_name)` with a string argument (as called
in `flush_network`): `name in layer_name` is a substring test. -/
def deepcopy_layersS (br : List (BName × Mod1)) (s : String) : List (BName × Mod1) :=
  br.filter fun c => substrOf c.1 s

def nbStr : String := "new_block"

def ntStr : String := "new_to_rgb"

def nfrStr : String := "new_from_rgb"

/-! ### Generator growth state machine (networks.py 48-123) -/

/-- The per-grow weight supply: an infinite stream of Kaiming samples. -/
abbrev WStream := ℕ → ConvW

/-- The mutable state of a `Generator` object. -/
structure GenState where
  nc : ℕ
  nz : ℕ
  size : ℕ
  stages : ℕ
  current_stage : ℕ
  rng : ℕ
  model : Registry
  module_names : List BName

/-- `conv_block` (networks.py 10-15). -/
def conv_block (inF outF k s p : ℕ) (pn : Bool) (wgt : ConvW) : List Leaf :=
  [EqualizedConv2d ⟨inF, outF, k, s, p⟩ wgt, .lreluL (1 / 5)]
    ++ (if pn then [.pixelnormL] else [])

/-- `Generator.first_block` (networks.py 65-71). -/
def Generator.first_block (nz ndim : ℕ) (w1 w2 : ConvW) : Mod1 :=
  .blockM ([.pixelnormL] ++ conv_block nz ndim 4 1 3 true w1
    ++ conv_block ndim ndim 3 1 1 true w2)

/-- `Generator.to_rgb_block` (networks.py 72-73). -/
def Generator.to_rgb_block (ndim nc : ℕ) (wgt : ConvW) : Mod1 :=
  .leafM (EqualizedConv2d ⟨ndim, nc, 1, 1, 0⟩ wgt)

/-- `Generator.intermediate_block` (networks.py 74-81); its two asserts are
checked at the call site in `grow_network` below, in source order. -/
def Generator.intermediate_block (stage : ℕ) (w1 w2 : ConvW) : Mod1 :=
  .blockM ([.upsampleL]
    ++ conv_block (Generator.nf (stage - 1)) (Generator.nf stage) 3 1 1 true w1
    ++ conv_block (Generator.nf stage) (Generator.nf stage) 3 1 1 true w2)

/-- `Generator.__init__` / `get_init_G` (networks.py 49-64).  The three
Kaiming draws consumed are `ws 0`, `ws 1` (first block) and `ws 2`
(`to_rgb`). -/
def Generator.init (ws : WStream) (nc nz size : ℕ) : GenState :=
  let model : Registry :=
    [(.stage 1, .sub (Generator.first_block nz (Generator.nf 1) (ws 0) (ws 1))),
     (.to_rgb, .sub (Generator.to_rgb_block (Generator.nf 1) nc (ws 2)))]
  ⟨nc, nz, size, stagesOf size, 1, 3, model, get_module_names model⟩

/-- `Generator.grow_network` (networks.py 82-103).  `current_stage` is
incremented *before* the assert, so a failing call leaves the stage counter
past the bound; the result flag records whether the call succeeded (Python:
did not raise). -/
def Generator.grow_network (ws : WStream) (s : GenState) : GenState × Bool :=
  let s1 := s.current_stage + 1
  if s1 > s.stages then ({ s with current_stage := s1 }, false)
  else
    let new_model := deepcopy_exclude s.model [.to_rgb]
    match (deepcopy_layersL s.model [.to_rgb]).getLast? with
    | none => ({ s with current_stage := s1 }, false)
    | some (_, .concatT _ _) => ({ s with current_stage := s1 }, false)
    | some (_, .fadeinM _) => ({ s with current_stage := s1 }, false)
    | some (_, .sub rgbm) =>
      if s1 ≤ 1 then ({ s with current_stage := s1 }, false)
      else
        let old_block : List (BName × Mod1) :=
          [(.old_upsample, .leafM .upsampleL), (.old_to_rgb, rgbm)]
        let inter := Generator.intermediate_block s1 (ws s.rng) (ws (s.rng + 1))
        let new_rgb := Generator.to_rgb_block (Generator.nf s1) s.nc (ws (s.rng + 2))
        let new_block : List (BName × Mod1) :=
          [(.new_block, inter), (.new_to_rgb, new_rgb)]
        let model := new_model
          ++ [(.concat_block, .concatT old_block new_block), (.fadein_b, .fadeinM 0)]
        ({ s with current_stage := s1, rng := s.rng + 3, model := model,
                  module_names := get_module_names model }, true)

/-- `Generator.flush_network` (networks.py 104-118).  All failure points
(`self.model.concat_block` missing, `[-1]` of an empty copy) precede any
mutation, so a failing flush leaves the state unchanged. -/
def Generator.flush_network (s : GenState) : GenState × Bool :=
  match s.model.find? (fun c => decide (c.1 = .concat_block)) with
  | some (_, .concatT _ layer2) =>
    match (deepcopy_layersS layer2 nbStr).getLast?,
          (deepcopy_layersS layer2 ntStr).getLast? with
    | some (_, nb), some (_, nt) =>
      let base := deepcopy_exclude s.model [.concat_block, .fadein_b]
      let model := base ++ [(.stage s.current_stage, .sub nb), (.to_rgb, .sub nt)]
      ({ s with model := model, module_names := get_module_names model }, true)
    | _, _ => (s, false)
  | _ => (s, false)

/-! ### Discriminator growth state machine (networks.py 130-212) -/

/-- The mutable state of a `Discriminator` object. -/
structure DiscState where
  nc : ℕ
  size : ℕ
  stages : ℕ
  current_stage : ℕ
  rng : ℕ
  model : Registry
  module_names : List BName

/-- `Discriminator.from_rgb_block` (networks.py 154-157). -/
def Discriminator.from_rgb_block (nc ndim : ℕ) (wgt : ConvW) : Mod1 :=
  .blockM (conv_block nc ndim 1 1 0 false wgt)

/-- `Discriminator.last_block` (networks.py 146-153).  The affine unit's
weight matrix is drawn from the same stream, read at kernel position (0,0). -/
def Discriminator.last_block (stages : ℕ) (w1 w2 w3 : ConvW) : Mod1 :=
  let ndim := Discriminator.nf (8 - stages)
  .blockM ([.mbstddevL 4] ++ conv_block (ndim + 1) ndim 3 1 1 false w1
    ++ conv_block ndim ndim 4 1 0 false w2
    ++ [EqualizedLinear ndim 1 (fun o f => w3 o f 0 0)])

/-- `Discriminator.intermediate_block` (networks.py 158-165); its asserts
are checked at the call site in `grow_network`, in source order.  `8 - stage`
and `7 - stage` use truncated subtraction, which agrees with the Python
value of `nf` at every argument the program produces. -/
def Discriminator.intermediate_block (stage : ℕ) (w1 w2 : ConvW) : Mod1 :=
  .blockM (conv_block (Discriminator.nf (8 - stage)) (Discriminator.nf (8 - stage)) 3 1 1 false w1
    ++ conv_block (Discriminator.nf (8 - stage)) (Discriminator.nf (7 - stage)) 3 1 1 false w2
    ++ [.avgpoolL])

/-- `Discriminator.__init__` / `get_init_D` (networks.py 131-145). -/
def Discriminator.init (ws : WStream) (nc size : ℕ) : DiscState :=
  let stages := stagesOf size
  let model : Registry :=
    [(.from_rgb, .sub (Discriminator.from_rgb_block nc (Discriminator.nf (8 - stages)) (ws 0))),
     (.stage stages, .sub (Discriminator.last_block stages (ws 1) (ws 2) (ws 3)))]
  ⟨nc, size, stages, stages, 4, model, get_module_names model⟩

/-- `Discriminator.grow_network` (networks.py 166-191).  `current_stage` is
decremented *before* the assert. -/
def Discriminator.grow_network (ws : WStream) (s : DiscState) : DiscState × Bool :=
  let s1 := s.current_stage - 1
  if s1 < 1 then ({ s with current_stage := s1 }, false)
  else
    match (deepcopy_layersL s.model [.from_rgb]).getLast? with
    | none => ({ s with current_stage := s1 }, false)
    | some (_, .concatT _ _) => ({ s with current_stage := s1 }, false)
    | some (_, .fadeinM _) => ({ s with current_stage := s1 }, false)
    | some (_, .sub fr) =>
      if s1 ≥ s.stages then ({ s with current_stage := s1 }, false)
      else
        let old_block : List (BName × Mod1) :=
          [(.old_downsample, .leafM .avgpoolL), (.old_from_rgb, fr)]
        let inter := Discriminator.intermediate_block s1 (ws s.rng) (ws (s.rng + 1))
        let nfr := Discriminator.from_rgb_block s.nc (Discriminator.nf (8 - s1)) (ws (s.rng + 2))
        let new_block : List (BName × Mod1) :=
          [(.new_from_rgb, nfr), (.new_block, inter)]
        let copied := deepcopy_exclude s.model [.from_rgb]
        let model := [(.concat_block, .concatT old_block new_block),
                      (.fadein_b, .fadeinM 0)] ++ copied
        ({ s with current_stage := s1, rng := s.rng + 3, model := model,
                  module_names := get_module_names model }, true)

/-- `Discriminator.flush_network` (networks.py 192-209). -/
def Discriminator.flush_network (s : DiscState) : DiscState × Bool :=
  match s.model.find? (fun c => decide (c.1 = .concat_block)) with
  | some (_, .concatT _ layer2) =>
    match (deepcopy_layersS layer2 nbStr).getLast?,
          (deepcopy_layersS layer2 nfrStr).getLast? with
    | some (_, nb), some (_, nfr) =>
      let base := deepcopy_exclude s.model [.concat_block, .fadein_b]
      let model := [(.from_rgb, .sub nfr), (.stage s.current_stage, .sub nb)] ++ base
      ({ s with model := model, module_names := get_module_names model }, true)
    | _, _ => (s, false)
  | _ => (s, false)

/-! ### Canonical reachable states of the generator

Growth is deterministic given the weight stream, so every reachable state
has a closed canonical form, proved below by induction over grow/flush
cycles. -/

/-- The stage block registered as `stage_j` in a reachable generator. -/
def stageBlockG (ws : WStream) (nz j : ℕ) : Mod1 :=
  if j ≤ 1 then Generator.first_block nz (Generator.nf 1) (ws 0) (ws 1)
  else Generator.intermediate_block j (ws (3 * (j - 1))) (ws (3 * (j - 1) + 1))

/-- The `to_rgb` block of a reachable generator at stage `k`. -/
def rgbAtG (ws : WStream) (nc k : ℕ) : Mod1 :=
  Generator.to_rgb_block (Generator.nf k) nc (ws (3 * k - 1))

/-- The trunk `stage_1 .. stage_k` of a reachable generator. -/
def canonStagesG (ws : WStream) (nz k : ℕ) : Registry :=
  (List.range k).map fun i => (BName.stage (i + 1), TopMod.sub (stageBlockG ws nz (i + 1)))

/-- The whole registry of a stable generator at stage `k`. -/
def canonModelG (ws : WStream) (nc nz k : ℕ) : Registry :=
  canonStagesG ws nz k ++ [(.to_rgb, .sub (rgbAtG ws nc k))]

/-- The stable generator state at stage `k`. -/
def canonStableG (ws : WStream) (nc nz size k : ℕ) : GenState :=
  ⟨nc, nz, size, stagesOf size, k, 3 * k, canonModelG ws nc nz k,
   get_module_names (canonModelG ws nc nz k)⟩

/-- The old (faded-out) branch installed by `grow_network` at stage `k`. -/
def oldBranchG (ws : WStream) (nc k : ℕ) : List (BName × Mod1) :=
  [(.old_upsample, .leafM .upsampleL), (.old_to_rgb, rgbAtG ws nc k)]

/-- The new (faded-in) branch installed by `grow_network` at stage `k`. -/
def newBranchG (ws : WStream) (nc k : ℕ) : List (BName × Mod1) :=
  [(.new_block, Generator.intermediate_block (k + 1) (ws (3 * k)) (ws (3 * k + 1))),
   (.new_to_rgb, Generator.to_rgb_block (Generator.nf (k + 1)) nc (ws (3 * k + 2)))]

/-- The registry of a transitioning generator (old stage `k`). -/
def canonTransModelG (ws : WStream) (nc nz k : ℕ) : Registry :=
  canonStagesG ws nz k
    ++ [(.concat_block, .concatT (oldBranchG ws nc k) (newBranchG ws nc k)),
        (.fadein_b, .fadeinM 0)]

/-- The transitioning generator state (grown from stable stage `k`). -/
def canonTransG (ws : WStream) (nc nz size k : ℕ) : GenState :=
  ⟨nc, nz, size, stagesOf size, k + 1, 3 * k + 3, canonTransModelG ws nc nz k,
   get_module_names (canonTransModelG ws nc nz k)⟩

theorem canonStagesG_no_name (ws : WStream) (nz k : ℕ) (n : BName)
    (h : ∀ i < k, n ≠ .stage (i + 1)) (p : BName × TopMod → Bool)
    (hp : ∀ c : BName × TopMod, p c = decide (c.1 = n)) :
    (canonStagesG ws nz k).find? p = none := by
  refine List.find?_eq_none.mpr fun c hc => ?_
  simp only [canonStagesG, List.mem_map, List.mem_range] at hc
  obtain ⟨i, hi, rfl⟩ := hc
  simp [hp, (h i hi).symm]

theorem canonStagesG_filter_keep (ws : WStream) (nz k : ℕ)
    (p : BName × TopMod → Bool)
    (hp : ∀ i < k, p (.stage (i + 1), .sub (stageBlockG ws nz (i + 1))) = true) :
    (canonStagesG ws nz k).filter p = canonStagesG ws nz k := by
  refine List.filter_eq_self.mpr fun c hc => ?_
  simp only [canonStagesG, List.mem_map, List.mem_range] at hc
  obtain ⟨i, hi, rfl⟩ := hc
  exact hp i hi

theorem canonStagesG_filter_drop (ws : WStream) (nz k : ℕ)
    (p : BName × TopMod → Bool)
    (hp : ∀ i < k, p (.stage (i + 1), .sub (stageBlockG ws nz (i + 1))) = false) :
    (canonStagesG ws nz k).filter p = [] := by
  refine List.filter_eq_nil_iff.mpr fun c hc => ?_
  simp only [canonStagesG, List.mem_map, List.mem_range] at hc
  obtain ⟨i, hi, rfl⟩ := hc
  simp [hp i hi]

/-- `grow_network` on the canonical stable state at stage `k < stages`
succeeds and produces the canonical transitioning state. -/
theorem grow_canonG (ws : WStream) (nc nz size k : ℕ) (h1 : 1 ≤ k)
    (h2 : k + 1 ≤ stagesOf size) :
    Generator.grow_network ws (canonStableG ws nc nz size k)
      = (canonTransG ws nc nz size k, true) := by
  have hexcl : deepcopy_exclude (canonModelG ws nc nz k) [.to_rgb]
      = canonStagesG ws nz k := by
    unfold deepcopy_exclude canonModelG
    rw [List.filter_append, canonStagesG_filter_keep _ _ _ _ (by simp),
      List.filter_cons, List.filter_nil]
    simp
  have hkeep : deepcopy_layersL (canonModelG ws nc nz k) [.to_rgb]
      = [(.to_rgb, .sub (rgbAtG ws nc k))] := by
    unfold deepcopy_layersL canonModelG
    rw [List.filter_append, canonStagesG_filter_drop _ _ _ _ (by simp),
      List.filter_cons, List.filter_nil]
    simp
  unfold Generator.grow_network
  simp only [canonStableG, hexcl, hkeep]
  rw [if_neg (by omega)]
  simp only [List.getLast?_singleton]
  rw [if_neg (by omega)]
  unfold canonTransG canonTransModelG oldBranchG newBranchG
  rfl

/-- `flush_network` on the canonical transitioning state succeeds and
produces the canonical stable state at stage `k+1`, retaining the new
branch's two blocks unchanged under the canonical names. -/
theorem flush_transG (ws : WStream) (nc nz size k : ℕ) (h1 : 1 ≤ k) :
    Generator.flush_network (canonTransG ws nc nz size k)
      = (canonStableG ws nc nz size (k + 1), true) := by
  have hfind : (canonTransModelG ws nc nz k).find?
        (fun c => decide (c.1 = BName.concat_block))
      = some (.concat_block, .concatT (oldBranchG ws nc k) (newBranchG ws nc k)) := by
    unfold canonTransModelG
    rw [List.find?_append, canonStagesG_no_name _ _ _ _ (by simp) _ (fun _ => rfl)]
    rfl
  have hnb : deepcopy_layersS (newBranchG ws nc k) nbStr
      = [(.new_block,
          Generator.intermediate_block (k + 1) (ws (3 * k)) (ws (3 * k + 1)))] := by
    rfl
  have hnt : deepcopy_layersS (newBranchG ws nc k) ntStr
      = [(.new_to_rgb,
          Generator.to_rgb_block (Generator.nf (k + 1)) nc (ws (3 * k + 2)))] := by
    rfl
  have hbase : deepcopy_exclude (canonTransModelG ws nc nz k)
        [.concat_block, .fadein_b] = canonStagesG ws nz k := by
    unfold deepcopy_exclude canonTransModelG
    rw [List.filter_append, canonStagesG_filter_keep _ _ _ _ (by simp)]
    simp
  have hstages : canonStagesG ws nz (k + 1)
      = canonStagesG ws nz k
        ++ [(.stage (k + 1), .sub (stageBlockG ws nz (k + 1)))] := by
    unfold canonStagesG
    rw [show k + 1 = Nat.succ k from rfl, List.range_succ]
    simp
  have hblock : stageBlockG ws nz (k + 1)
      = Generator.intermediate_block (k + 1) (ws (3 * k)) (ws (3 * k + 1)) := by
    unfold stageBlockG
    rw [if_neg (by omega)]
    rfl
  unfold Generator.flush_network
  simp only [canonTransG, hfind, hnb, hnt, hbase, List.getLast?_singleton]
  unfold canonStableG canonModelG
  rw [hstages, hblock]
  have hrgb : rgbAtG ws nc (k + 1)
      = Generator.to_rgb_block (Generator.nf (k + 1)) nc (ws (3 * k + 2)) := by
    unfold rgbAtG
    rw [show 3 * (k + 1) - 1 = 3 * k + 2 from by omega]
  rw [hrgb]
  simp [List.append_assoc]
  omega

/-- The state after `j` grow/flush cycles from construction. -/
def Generator.iter (ws : WStream) (nc nz size : ℕ) : ℕ → GenState
  | 0 => Generator.init ws nc nz size
  | j + 1 =>
    (Generator.flush_network
      (Generator.grow_network ws (Generator.iter ws nc nz size j)).1).1

/-- The (unique) reachable stable generator state at stage `k`. -/
def Generator.stable (ws : WStream) (nc nz size k : ℕ) : GenState :=
  Generator.iter ws nc nz size (k - 1)

theorem genIter_canon (ws : WStream) (nc nz size : ℕ) (j : ℕ)
    (h : j + 1 ≤ stagesOf size) :
    Generator.iter ws nc nz size j = canonStableG ws nc nz size (j + 1) := by
  induction j with
  | zero =>
    unfold Generator.iter Generator.init canonStableG canonModelG canonStagesG
    rfl
  | succ j ih =>
    have hih := ih (by omega)
    unfold Generator.iter
    rw [hih, grow_canonG ws nc nz size (j + 1) (by omega) (by omega),
      flush_transG ws nc nz size (j + 1) (by omega)]

theorem genStable_canon (ws : WStream) (nc nz size k : ℕ) (h1 : 1 ≤ k)
    (h2 : k ≤ stagesOf size) :
    Generator.stable ws nc nz size k = canonStableG ws nc nz size k := by
  unfold Generator.stable
  have := genIter_canon ws nc nz size (k - 1) (by omega)
  rwa [show k - 1 + 1 = k by omega] at this

/-! ### Characterisation of `get_module_names` -/

/-- The specification-side predicate: a top-level block owns at least one
parameter tensor iff its `state_dict` is nonempty. -/
def ownsParams (m : TopMod) : Bool := !(modKeys m).isEmpty

theorem gmn_fold_mem (a : BName) (paths : List (List BName)) (acc : List BName)
    (h : a ∈ acc) :
    (paths.map fun p => (a, p)).foldl
        (fun acc k => if k.1 ∈ acc then acc else acc ++ [k.1]) acc = acc := by
  induction paths with
  | nil => rfl
  | cons p ps ih => simpa [h] using ih

theorem gmn_fold_block (a : BName) (paths : List (List BName)) (acc : List BName)
    (h : a ∉ acc) (hne : paths ≠ []) :
    (paths.map fun p => (a, p)).foldl
        (fun acc k => if k.1 ∈ acc then acc else acc ++ [k.1]) acc = acc ++ [a] := by
  cases paths with
  | nil => exact absurd rfl hne
  | cons p ps =>
    simp only [List.map_cons, List.foldl_cons, if_neg h]
    exact gmn_fold_mem a ps (acc ++ [a]) (by simp)

theorem gmn_aux (cs : Registry) (acc : List BName)
    (hdisj : ∀ c ∈ cs, c.1 ∉ acc) (hnodup : (cs.map Prod.fst).Nodup) :
    (registryKeys cs).foldl
        (fun acc k => if k.1 ∈ acc then acc else acc ++ [k.1]) acc
      = acc ++ (cs.filter fun c => ownsParams c.2).map Prod.fst := by
  induction cs generalizing acc with
  | nil => simp [registryKeys]
  | cons c cs ih =>
    have hkeys : registryKeys (c :: cs)
        = ((modKeys c.2).map fun p => (c.1, p)) ++ registryKeys cs := by
      simp [registryKeys]
    rw [hkeys, List.foldl_append]
    simp only [List.map_cons, List.nodup_cons] at hnodup
    by_cases hmt : modKeys c.2 = []
    · rw [hmt]
      simp only [List.map_nil, List.foldl_nil]
      rw [ih acc (fun d hd => hdisj d (List.mem_cons_of_mem c hd)) hnodup.2]
      have : ownsParams c.2 = false := by simp [ownsParams, hmt]
      simp [List.filter_cons, this]
    · rw [gmn_fold_block c.1 (modKeys c.2) acc (hdisj c (List.mem_cons_self c cs)) hmt]
      have hdisj2 : ∀ d ∈ cs, d.1 ∉ acc ++ [c.1] := by
        intro d hd
        simp only [List.mem_append, List.mem_singleton]
        rintro (h | h)
        · exact hdisj d (List.mem_cons_of_mem c hd) h
        · exact hnodup.1 (h ▸ List.mem_map_of_mem Prod.fst hd)
      rw [ih (acc ++ [c.1]) hdisj2 hnodup.2]
      have : ownsParams c.2 = true := by simp [ownsParams, hmt]
      simp [List.filter_cons, this]

/-- C10's characterisation: for a registry with distinct top-level names,
`get_module_names` is exactly the names of the blocks owning at least one
parameter tensor, in insertion order. -/
theorem get_module_names_eq (cs : Registry) (h : (cs.map Prod.fst).Nodup) :
    get_module_names cs = (cs.filter fun c => ownsParams c.2).map Prod.fst := by
  simpa [get_module_names] using gmn_aux cs [] (by simp) h

theorem ownsParams_stageBlockG (ws : WStream) (nz j : ℕ) :
    ownsParams (.sub (stageBlockG ws nz j)) = true := by
  unfold stageBlockG
  split <;> rfl

theorem ownsParams_rgbAtG (ws : WStream) (nc k : ℕ) :
    ownsParams (.sub (rgbAtG ws nc k)) = true := rfl

theorem canonModelG_names (ws : WStream) (nc nz k : ℕ) :
    (canonModelG ws nc nz k).map Prod.fst
      = ((List.range k).map fun i => BName.stage (i + 1)) ++ [.to_rgb] := by
  simp [canonModelG, canonStagesG]

theorem stageNames_nodup_to_rgb (k : ℕ) :
    ((((List.range k).map fun i => BName.stage (i + 1)) ++ [BName.to_rgb])).Nodup := by
  rw [List.nodup_append]
  refine ⟨?_, by simp, ?_⟩
  · refine List.Nodup.map ?_ (List.nodup_range k)
    intro a b hab
    simpa using hab
  · intro x hx
    simp only [List.mem_map, List.mem_range] at hx
    obtain ⟨i, _, rfl⟩ := hx
    simp

theorem canonModelG_module_names (ws : WStream) (nc nz k : ℕ) :
    get_module_names (canonModelG ws nc nz k)
      = ((List.range k).map fun i => BName.stage (i + 1)) ++ [.to_rgb] := by
  rw [get_module_names_eq _ (by rw [canonModelG_names]; exact stageNames_nodup_to_rgb k)]
  have : (canonModelG ws nc nz k).filter (fun c => ownsParams c.2)
      = canonModelG ws nc nz k := by
    refine List.filter_eq_self.mpr fun c hc => ?_
    simp only [canonModelG, canonStagesG, List.mem_append, List.mem_map,
      List.mem_range, List.mem_singleton] at hc
    rcases hc with ⟨i, _, rfl⟩ | rfl
    · exact ownsParams_stageBlockG ws nz (i + 1)
    · rfl
  rw [this, canonModelG_names]

theorem canonTransModelG_names (ws : WStream) (nc nz k : ℕ) :
    (canonTransModelG ws nc nz k).map Prod.fst
      = ((List.range k).map fun i => BName.stage (i + 1))
          ++ [.concat_block, .fadein_b] := by
  simp [canonTransModelG, canonStagesG]

theorem transNames_nodup (k : ℕ) :
    ((((List.range k).map fun i => BName.stage (i + 1)))
        ++ [BName.concat_block, BName.fadein_b]).Nodup := by
  rw [List.nodup_append]
  refine ⟨?_, by simp, ?_⟩
  · refine List.Nodup.map ?_ (List.nodup_range k)
    intro a b hab
    simpa using hab
  · intro x hx
    simp only [List.mem_map, List.mem_range] at hx
    obtain ⟨i, _, rfl⟩ := hx
    simp

theorem canonTransModelG_module_names (ws : WStream) (nc nz k : ℕ) :
    get_module_names (canonTransModelG ws nc nz k)
      = ((List.range k).map fun i => BName.stage (i + 1)) ++ [.concat_block] := by
  rw [get_module_names_eq _ (by rw [canonTransModelG_names]; exact transNames_nodup k)]
  unfold canonTransModelG
  rw [List.filter_append, canonStagesG_filter_keep _ _ _ _
    (fun i _ => ownsParams_stageBlockG ws nz (i + 1))]
  have h1 : ownsParams (TopMod.concatT (oldBranchG ws nc k) (newBranchG ws nc k)) = true := rfl
  have h2 : ownsParams (TopMod.fadeinM 0) = false := rfl
  simp [List.filter_cons, h1, h2, canonStagesG]

/-! ### Forward evaluation of the registry

`nn.Sequential` evaluation is the sequential composition of its children;
`ConcatTable` produces the pair `[layer1(x), layer2(x)]` and `Fadein`
consumes such a pair (layers.py 67-86). -/

/-- A value flowing through the network: a tensor, or the two-element list a
`ConcatTable` produces. -/
inductive TVal where
  | t (x : Tensor4)
  | pair (a b : Tensor4)

def evalLeafList : List Leaf → Tensor4 → Option Tensor4
  | [], x => some x
  | l :: ls, x => (evalLeaf l x).bind (evalLeafList ls)

def evalMod1 : Mod1 → Tensor4 → Option Tensor4
  | .leafM l, x => evalLeaf l x
  | .blockM ls, x => evalLeafList ls x

def evalBranch : List (BName × Mod1) → Tensor4 → Option Tensor4
  | [], x => some x
  | c :: cs, x => (evalMod1 c.2 x).bind (evalBranch cs)

/-- One top-level registry step.  `Fadein` is applied only to the pair a
`ConcatTable` produced, as its own comment documents. -/
def evalStep : TopMod → TVal → Option TVal
  | .sub m, .t x => (evalMod1 m x).map .t
  | .concatT la lb, .t x =>
      (evalBranch la x).bind fun a => (evalBranch lb x).map fun b => .pair a b
  | .fadeinM alpha, .pair a b => some (.t (Fadein.forward alpha a b))
  | _, _ => none

def evalTop : Registry → TVal → Option TVal
  | [], v => some v
  | c :: cs, v => (evalStep c.2 v).bind (evalTop cs)

/-- `self.model(x)`: evaluate the registered blocks in order. -/
def Generator.evalModel (s : GenState) (x : Tensor4) : Option TVal :=
  evalTop s.model (.t x)

theorem evalTop_append (l1 l2 : Registry) (v : TVal) :
    evalTop (l1 ++ l2) v = (evalTop l1 v).bind (evalTop l2) := by
  induction l1 generalizing v with
  | nil => simp [evalTop]
  | cons c cs ih =>
    simp only [List.cons_append, evalTop, Option.bind_assoc]
    cases evalStep c.2 v with
    | none => rfl
    | some v2 => simp [ih]

/-- `Fadein` at `alpha = 0` returns the old branch's output exactly. -/
theorem fadein_zero (a b : Tensor4) : Fadein.forward 0 a b = a := by
  refine Tensor4.eq_of_fields rfl rfl rfl rfl ?_
  funext n c i j
  show a.data n c i j * (1 - 0) + b.data n c i j * 0 = a.data n c i j
  ring

theorem canonStagesG_succ (ws : WStream) (nz k : ℕ) :
    canonStagesG ws nz (k + 1)
      = canonStagesG ws nz k
        ++ [(.stage (k + 1), .sub (stageBlockG ws nz (k + 1)))] := by
  unfold canonStagesG
  rw [show k + 1 = Nat.succ k from rfl, List.range_succ]
  simp

/-- Every canonical generator stage block evaluates totally, to a tensor of
positive spatial extent. -/
theorem evalMod1_stageBlockG (ws : WStream) (nz j : ℕ) (x : Tensor4) :
    ∃ y : Tensor4, evalMod1 (stageBlockG ws nz j) x = some y
      ∧ 1 ≤ y.h ∧ 1 ≤ y.w := by
  unfold stageBlockG
  split
  · exact ⟨_, rfl, Nat.le_add_left 1 _, Nat.le_add_left 1 _⟩
  · exact ⟨_, rfl, Nat.le_add_left 1 _, Nat.le_add_left 1 _⟩

/-- The trunk of a reachable generator evaluates totally. -/
theorem evalTop_canonStagesG (ws : WStream) (nz k : ℕ) (x : Tensor4)
    (hk : 1 ≤ k) :
    ∃ v : Tensor4, evalTop (canonStagesG ws nz k) (.t x) = some (.t v)
      ∧ 1 ≤ v.h ∧ 1 ≤ v.w := by
  induction k with
  | zero => omega
  | succ k ih =>
    rcases Nat.eq_zero_or_pos k with rfl | hk2
    · obtain ⟨y, hy, h1, h2⟩ := evalMod1_stageBlockG ws nz 1 x
      refine ⟨y, ?_, h1, h2⟩
      simp [canonStagesG, evalTop, evalStep, hy]
    · obtain ⟨v, hv, _, _⟩ := ih hk2
      obtain ⟨y, hy, h1, h2⟩ := evalMod1_stageBlockG ws nz (k + 1) v
      refine ⟨y, ?_, h1, h2⟩
      rw [canonStagesG_succ, evalTop_append, hv]
      simp [evalTop, evalStep, hy]

/-- A 1×1 stride-1 convolution commutes with the nearest-neighbour 2×
upsample: resampling before or after the terminal block gives the same
tensor. -/
theorem conv1x1_up (inF outF : ℕ) (wgt : ConvW) (bias : ℕ → ℚ) (s : ℚ)
    (v : Tensor4) (hh : 1 ≤ v.h) (hw : 1 ≤ v.w) :
    conv2d ⟨inF, outF, 1, 1, 0⟩ wgt bias (tmul (Upsample.forward v) s)
      = Upsample.forward (conv2d ⟨inF, outF, 1, 1, 0⟩ wgt bias (tmul v s)) := by
  refine Tensor4.eq_of_fields rfl rfl ?_ ?_ ?_
  · show convOut (2 * v.h) 0 1 1 = 2 * convOut v.h 0 1 1
    simp only [convOut]
    omega
  · show convOut (2 * v.w) 0 1 1 = 2 * convOut v.w 0 1 1
    simp only [convOut]
    omega
  · funext n o i j
    show bias o + _ = bias o + _
    congr 1
    refine Finset.sum_congr rfl fun c _ => ?_
    rw [Finset.sum_range_one, Finset.sum_range_one, Finset.sum_range_one,
      Finset.sum_range_one]
    congr 1
    simp only [padRead, tmul, Upsample.forward, Nat.mul_one, Nat.add_zero,
      Nat.sub_zero, Nat.zero_le, true_and]
    have hi : i < 2 * v.h ↔ i / 2 < v.h := by omega
    have hj : j < 2 * v.w ↔ j / 2 < v.w := by omega
    rw [if_congr (and_congr hi hj) rfl rfl]

theorem evalMod1_to_rgb (ndim nc : ℕ) (w : ConvW) (u : Tensor4) :
    evalMod1 (Generator.to_rgb_block ndim nc w) u
      = some (conv2d ⟨ndim, nc, 1, 1, 0⟩
          (fun o c p q => w o c p q / Rat.sqrt (meanSqConv ⟨ndim, nc, 1, 1, 0⟩ w))
          (fun _ => 0)
          (tmul u (Rat.sqrt (meanSqConv ⟨ndim, nc, 1, 1, 0⟩ w)))) := rfl

/-- C1: growing a reachable stable generator at stage `k < totalStages`
succeeds, and evaluating the grown network with no blend update
(`blendFactor = 0`) returns exactly the old branch's output — which is the
pre-grow network's output passed through the fixed 2× nearest-neighbour
resample (the resample commutes with the 1×1 terminal block).  The blend at
factor 0 selects the old path exactly, for arbitrary branch outputs. -/
theorem grow_preserves_evaluation (ws : WStream) (nc nz size k : ℕ)
    (x : Tensor4) (h1 : 1 ≤ k) (h2 : k + 1 ≤ stagesOf size) :
    (Generator.grow_network ws (Generator.stable ws nc nz size k)).2 = true
    ∧ (∀ a b : Tensor4, Fadein.forward 0 a b = a)
    ∧ ∃ y : Tensor4,
        Generator.evalModel (Generator.stable ws nc nz size k) x = some (.t y)
        ∧ Generator.evalModel
            (Generator.grow_network ws (Generator.stable ws nc nz size k)).1 x
          = some (.t (Upsample.forward y)) := by
  rw [genStable_canon ws nc nz size k h1 (by omega),
    grow_canonG ws nc nz size k h1 h2]
  refine ⟨rfl, fadein_zero, ?_⟩
  obtain ⟨v, hv, hvh, hvw⟩ := evalTop_canonStagesG ws nz k x h1
  set s := Rat.sqrt (meanSqConv ⟨Generator.nf k, nc, 1, 1, 0⟩ (ws (3 * k - 1))) with hs
  set wdiv : ConvW := fun o c p q => ws (3 * k - 1) o c p q / s with hwdiv
  refine ⟨conv2d ⟨Generator.nf k, nc, 1, 1, 0⟩ wdiv (fun _ => 0) (tmul v s),
    ?_, ?_⟩
  · show evalTop (canonModelG ws nc nz k) (.t x) = _
    unfold canonModelG
    rw [evalTop_append, hv]
    simp [evalTop, evalStep, rgbAtG, evalMod1_to_rgb]
  · show evalTop (canonTransModelG ws nc nz k) (.t x) = _
    unfold canonTransModelG
    rw [evalTop_append, hv]
    obtain ⟨nv, hnv⟩ : ∃ nv, evalBranch (newBranchG ws nc k) v = some nv :=
      ⟨_, rfl⟩
    have hold : evalBranch (oldBranchG ws nc k) v
        = some (conv2d ⟨Generator.nf k, nc, 1, 1, 0⟩ wdiv (fun _ => 0)
            (tmul (Upsample.forward v) s)) := rfl
    simp only [evalTop, evalStep, hold, hnv, Option.bind_some, Option.map_some,
      Option.some_bind]
    rw [conv1x1_up _ _ _ _ _ _ hvh hvw]
    simp [fadein_zero]

def ws0 : WStream := fun _ => fun _ _ _ _ => 0

def c1x : Tensor4 := ⟨1, 512, 1, 1, fun _ _ _ _ => 1⟩

/-- C1 witness: the theorem applied to a freshly constructed size-8 generator
(`totalStages = 2`) at stage 1, with both stage bounds discharged by
`decide`. -/
theorem grow_preserves_evaluation_witness :
    (Generator.grow_network ws0 (Generator.stable ws0 3 512 8 1)).2 = true
    ∧ (∀ a b : Tensor4, Fadein.forward 0 a b = a)
    ∧ ∃ y : Tensor4,
        Generator.evalModel (Generator.stable ws0 3 512 8 1) c1x = some (.t y)
        ∧ Generator.evalModel
            (Generator.grow_network ws0 (Generator.stable ws0 3 512 8 1)).1 c1x
          = some (.t (Upsample.forward y)) :=
  grow_preserves_evaluation ws0 3 512 8 1 c1x (by decide) (by rw [stagesOf_8])

/-! ### Claim C2: flush discards the old branch and retains the new one -/

/-- Registry lookup by block name (first match, as `getattr` resolves). -/
def lookupName (cs : Registry) (n : BName) : Option TopMod :=
  (cs.find? fun c => decide (c.1 = n)).map Prod.snd

/-- Lookup inside a `ConcatTable` branch. -/
def lookup1 (br : List (BName × Mod1)) (n : BName) : Option Mod1 :=
  (br.find? fun c => decide (c.1 = n)).map Prod.snd

/-- `self.model.concat_block.layer2`'s named children, when present. -/
def layer2Children (s : GenState) : Option (List (BName × Mod1)) :=
  match s.model.find? (fun c => decide (c.1 = .concat_block)) with
  | some (_, .concatT _ lb) => some lb
  | _ => none

theorem find_concat_canonTransModelG (ws : WStream) (nc nz k : ℕ) :
    (canonTransModelG ws nc nz k).find? (fun c => decide (c.1 = BName.concat_block))
      = some (.concat_block, .concatT (oldBranchG ws nc k) (newBranchG ws nc k)) := by
  unfold canonTransModelG
  rw [List.find?_append, canonStagesG_no_name _ _ _ _ (by simp) _ (fun _ => rfl)]
  rfl

theorem stageBlockG_succ_eq (ws : WStream) (nz k : ℕ) (h : 1 ≤ k) :
    stageBlockG ws nz (k + 1)
      = Generator.intermediate_block (k + 1) (ws (3 * k)) (ws (3 * k + 1)) := by
  unfold stageBlockG
  rw [if_neg (by omega)]
  rfl

theorem rgbAtG_succ_eq (ws : WStream) (nc k : ℕ) :
    rgbAtG ws nc (k + 1)
      = Generator.to_rgb_block (Generator.nf (k + 1)) nc (ws (3 * k + 2)) := by
  unfold rgbAtG
  rw [show 3 * (k + 1) - 1 = 3 * k + 2 from by omega]

theorem lookupName_canonModelG_stage (ws : WStream) (nc nz k : ℕ) :
    lookupName (canonModelG ws nc nz (k + 1)) (.stage (k + 1))
      = some (.sub (stageBlockG ws nz (k + 1))) := by
  unfold lookupName canonModelG
  rw [canonStagesG_succ, List.append_assoc, List.find?_append,
    canonStagesG_no_name _ _ _ _ (fun i hi => by simp; omega) _ (fun _ => rfl)]
  simp

theorem lookupName_canonModelG_rgb (ws : WStream) (nc nz k : ℕ) :
    lookupName (canonModelG ws nc nz k) .to_rgb = some (.sub (rgbAtG ws nc k)) := by
  unfold lookupName canonModelG
  rw [List.find?_append, canonStagesG_no_name _ _ _ _ (by simp) _ (fun _ => rfl)]
  rfl

theorem lookupName_canonModelG_none (ws : WStream) (nc nz k : ℕ) (n : BName)
    (hstage : ∀ i < k, n ≠ .stage (i + 1)) (hrgb : n ≠ .to_rgb) :
    lookupName (canonModelG ws nc nz k) n = none := by
  unfold lookupName canonModelG
  rw [List.find?_append, canonStagesG_no_name _ _ _ _ hstage _ (fun _ => rfl)]
  have hd : decide (BName.to_rgb = n) = false := by
    simpa using fun h => hrgb h.symm
  simp [List.find?_cons, hd]

/-- C2: flushing the (reachable) transitioning network succeeds; the
resulting registry holds, under the canonical names `stage_(k+1)` and
`to_rgb`, exactly the `Mod1` values (hence exactly the parameter tensors)
that the new branch's `new_block` and `new_to_rgb` children held immediately
before the flush, and the `concat_block`/`fadein` wrapper — including the
whole old branch — is gone. -/
theorem flush_preserves_new_branch (ws : WStream) (nc nz size k : ℕ)
    (h1 : 1 ≤ k) (h2 : k + 1 ≤ stagesOf size) :
    (Generator.flush_network
        (Generator.grow_network ws (Generator.stable ws nc nz size k)).1).2 = true
    ∧ ∃ br : List (BName × Mod1),
        layer2Children (Generator.grow_network ws
            (Generator.stable ws nc nz size k)).1 = some br
        ∧ (lookup1 br .new_block).isSome
        ∧ (lookup1 br .new_to_rgb).isSome
        ∧ lookupName (Generator.flush_network (Generator.grow_network ws
              (Generator.stable ws nc nz size k)).1).1.model
            (.stage (Generator.grow_network ws
              (Generator.stable ws nc nz size k)).1.current_stage)
            = (lookup1 br .new_block).map .sub
        ∧ lookupName (Generator.flush_network (Generator.grow_network ws
              (Generator.stable ws nc nz size k)).1).1.model .to_rgb
            = (lookup1 br .new_to_rgb).map .sub
        ∧ lookupName (Generator.flush_network (Generator.grow_network ws
              (Generator.stable ws nc nz size k)).1).1.model .concat_block = none
        ∧ lookupName (Generator.flush_network (Generator.grow_network ws
              (Generator.stable ws nc nz size k)).1).1.model .fadein_b = none := by
  rw [genStable_canon ws nc nz size k h1 (by omega),
    grow_canonG ws nc nz size k h1 h2]
  simp only
  rw [flush_transG ws nc nz size k h1]
  refine ⟨rfl, newBranchG ws nc k, ?_, rfl, rfl, ?_, ?_, ?_, ?_⟩
  · unfold layer2Children
    simp only [canonTransG]
    rw [find_concat_canonTransModelG]
  · show lookupName (canonModelG ws nc nz (k + 1)) (.stage (k + 1)) = _
    rw [lookupName_canonModelG_stage, stageBlockG_succ_eq ws nz k h1]
    rfl
  · show lookupName (canonModelG ws nc nz (k + 1)) .to_rgb = _
    rw [lookupName_canonModelG_rgb, rgbAtG_succ_eq]
    rfl
  · exact lookupName_canonModelG_none ws nc nz (k + 1) _ (by simp) (by simp)
  · exact lookupName_canonModelG_none ws nc nz (k + 1) _ (by simp) (by simp)

/-- C2 witness: the theorem applied to a freshly grown size-8 generator at
stage 1. -/
theorem flush_preserves_new_branch_witness :
    (Generator.flush_network
        (Generator.grow_network ws0 (Generator.stable ws0 3 512 8 1)).1).2 = true := by
  have h := flush_preserves_new_branch ws0 3 512 8 1 (by decide) (by rw [stagesOf_8])
  exact h.1

/-! ### Canonical reachable states of the discriminator

The discriminator mirrors the generator with the stage counter decreasing;
`init` consumes draws `ws 0 .. ws 3`, each grow consumes three more, so the
stable state at stage `k` has used `4 + 3*(stages-k)` draws. -/

/-- The block registered as `stage_j` in a reachable discriminator with the
given total stage count. -/
def stageEntryD (ws : WStream) (stages j : ℕ) : Mod1 :=
  if j ≥ stages then Discriminator.last_block stages (ws 1) (ws 2) (ws 3)
  else Discriminator.intermediate_block j
    (ws (4 + 3 * (stages - 1 - j))) (ws (4 + 3 * (stages - 1 - j) + 1))

/-- The `from_rgb` block of a reachable discriminator at stage `k`. -/
def fromRgbD (ws : WStream) (nc stages k : ℕ) : Mod1 :=
  if k ≥ stages then Discriminator.from_rgb_block nc (Discriminator.nf (8 - stages)) (ws 0)
  else Discriminator.from_rgb_block nc (Discriminator.nf (8 - k))
    (ws (4 + 3 * (stages - 1 - k) + 2))

/-- The stage blocks `stage_k .. stage_stages` of a reachable discriminator. -/
def canonTailD (ws : WStream) (stages k : ℕ) : Registry :=
  (List.range (stages + 1 - k)).map fun i =>
    (BName.stage (k + i), TopMod.sub (stageEntryD ws stages (k + i)))

/-- The whole registry of a stable discriminator at stage `k`. -/
def canonModelD (ws : WStream) (nc stages k : ℕ) : Registry :=
  (.from_rgb, .sub (fromRgbD ws nc stages k)) :: canonTailD ws stages k

/-- The stable discriminator state at stage `k`. -/
def canonStableD (ws : WStream) (nc size k : ℕ) : DiscState :=
  ⟨nc, size, stagesOf size, k, 4 + 3 * (stagesOf size - k),
   canonModelD ws nc (stagesOf size) k,
   get_module_names (canonModelD ws nc (stagesOf size) k)⟩

/-- The old (faded-out) branch installed by discriminator `grow_network`
called from stable stage `k`. -/
def oldBranchD (ws : WStream) (nc stages k : ℕ) : List (BName × Mod1) :=
  [(.old_downsample, .leafM .avgpoolL), (.old_from_rgb, fromRgbD ws nc stages k)]

/-- The new (faded-in) branch installed by discriminator `grow_network`
called from stable stage `k`. -/
def newBranchD (ws : WStream) (nc stages k : ℕ) : List (BName × Mod1) :=
  [(.new_from_rgb, Discriminator.from_rgb_block nc (Discriminator.nf (8 - (k - 1)))
      (ws (4 + 3 * (stages - k) + 2))),
   (.new_block, Discriminator.intermediate_block (k - 1)
      (ws (4 + 3 * (stages - k))) (ws (4 + 3 * (stages - k) + 1)))]

/-- The registry of a transitioning discriminator grown from stable stage `k`. -/
def canonTransModelD (ws : WStream) (nc stages k : ℕ) : Registry :=
  [(.concat_block, .concatT (oldBranchD ws nc stages k) (newBranchD ws nc stages k)),
   (.fadein_b, .fadeinM 0)] ++ canonTailD ws stages k

/-- The transitioning discriminator state grown from stable stage `k`. -/
def canonTransD (ws : WStream) (nc size k : ℕ) : DiscState :=
  ⟨nc, size, stagesOf size, k - 1, 4 + 3 * (stagesOf size - k) + 3,
   canonTransModelD ws nc (stagesOf size) k,
   get_module_names (canonTransModelD ws nc (stagesOf size) k)⟩

theorem canonTailD_no_name (ws : WStream) (stages k : ℕ) (n : BName)
    (h : ∀ i < stages + 1 - k, n ≠ .stage (k + i)) (p : BName × TopMod → Bool)
    (hp : ∀ c : BName × TopMod, p c = decide (c.1 = n)) :
    (canonTailD ws stages k).find? p = none := by
  refine List.find?_eq_none.mpr fun c hc => ?_
  simp only [canonTailD, List.mem_map, List.mem_range] at hc
  obtain ⟨i, hi, rfl⟩ := hc
  simp [hp, (h i hi).symm]

theorem canonTailD_filter_keep (ws : WStream) (stages k : ℕ)
    (p : BName × TopMod → Bool)
    (hp : ∀ i < stages + 1 - k,
      p (.stage (k + i), .sub (stageEntryD ws stages (k + i))) = true) :
    (canonTailD ws stages k).filter p = canonTailD ws stages k := by
  refine List.filter_eq_self.mpr fun c hc => ?_
  simp only [canonTailD, List.mem_map, List.mem_range] at hc
  obtain ⟨i, hi, rfl⟩ := hc
  exact hp i hi

theorem canonTailD_filter_drop (ws : WStream) (stages k : ℕ)
    (p : BName × TopMod → Bool)
    (hp : ∀ i < stages + 1 - k,
      p (.stage (k + i), .sub (stageEntryD ws stages (k + i))) = false) :
    (canonTailD ws stages k).filter p = [] := by
  refine List.filter_eq_nil_iff.mpr fun c hc => ?_
  simp only [canonTailD, List.mem_map, List.mem_range] at hc
  obtain ⟨i, hi, rfl⟩ := hc
  simp [hp i hi]

/-- Discriminator `grow_network` on the canonical stable state at stage
`k ≥ 2` succeeds and produces the canonical transitioning state. -/
theorem grow_canonD (ws : WStream) (nc size k : ℕ) (h1 : 2 ≤ k)
    (h2 : k ≤ stagesOf size) :
    Discriminator.grow_network ws (canonStableD ws nc size k)
      = (canonTransD ws nc size k, true) := by
  have hkeep : deepcopy_layersL (canonModelD ws nc (stagesOf size) k) [.from_rgb]
      = [(.from_rgb, .sub (fromRgbD ws nc (stagesOf size) k))] := by
    unfold deepcopy_layersL canonModelD
    rw [List.filter_cons, canonTailD_filter_drop _ _ _ _ (by simp)]
    simp
  have hexcl : deepcopy_exclude (canonModelD ws nc (stagesOf size) k) [.from_rgb]
      = canonTailD ws (stagesOf size) k := by
    unfold deepcopy_exclude canonModelD
    rw [List.filter_cons, canonTailD_filter_keep _ _ _ _ (by simp)]
    simp
  unfold Discriminator.grow_network
  simp only [canonStableD, hkeep, hexcl]
  rw [if_neg (by omega)]
  simp only [List.getLast?_singleton]
  rw [if_neg (by omega)]
  unfold canonTransD canonTransModelD oldBranchD newBranchD
  rfl

/-- Discriminator `flush_network` on the canonical transitioning state
succeeds and produces the canonical stable state at stage `k-1`. -/
theorem flush_transD (ws : WStream) (nc size k : ℕ) (h1 : 2 ≤ k)
    (h2 : k ≤ stagesOf size) :
    Discriminator.flush_network (canonTransD ws nc size k)
      = (canonStableD ws nc size (k - 1), true) := by
  have hbase : deepcopy_exclude (canonTransModelD ws nc (stagesOf size) k)
        [.concat_block, .fadein_b] = canonTailD ws (stagesOf size) k := by
    unfold deepcopy_exclude canonTransModelD
    rw [List.filter_append]
    rw [canonTailD_filter_keep _ _ _ _ (by simp)]
    rfl
  have htail : canonTailD ws (stagesOf size) (k - 1)
      = (.stage (k - 1), .sub (stageEntryD ws (stagesOf size) (k - 1)))
          :: canonTailD ws (stagesOf size) k := by
    unfold canonTailD
    rw [show stagesOf size + 1 - (k - 1) = (stagesOf size + 1 - k) + 1 from by omega,
      List.range_succ_eq_map]
    simp only [List.map_cons, Nat.add_zero, List.map_map]
    congr 1
    refine List.map_congr_left fun i _ => ?_
    simp only [Function.comp_apply]
    rw [show k - 1 + (i + 1) = k + i from by omega]
  have hentry : stageEntryD ws (stagesOf size) (k - 1)
      = Discriminator.intermediate_block (k - 1)
          (ws (4 + 3 * (stagesOf size - k))) (ws (4 + 3 * (stagesOf size - k) + 1)) := by
    unfold stageEntryD
    rw [if_neg (by omega)]
    rw [show stagesOf size - 1 - (k - 1) = stagesOf size - k from by omega]
  have hfr : fromRgbD ws nc (stagesOf size) (k - 1)
      = Discriminator.from_rgb_block nc (Discriminator.nf (8 - (k - 1)))
          (ws (4 + 3 * (stagesOf size - k) + 2)) := by
    unfold fromRgbD
    rw [if_neg (by omega)]
    rw [show stagesOf size - 1 - (k - 1) = stagesOf size - k from by omega]
  unfold Discriminator.flush_network
  simp only [canonTransD, canonTransModelD]
  rw [show ([(BName.concat_block,
        TopMod.concatT (oldBranchD ws nc (stagesOf size) k)
          (newBranchD ws nc (stagesOf size) k)),
      (BName.fadein_b, TopMod.fadeinM 0)] ++ canonTailD ws (stagesOf size) k).find?
        (fun c => decide (c.1 = BName.concat_block))
      = some (BName.concat_block,
          TopMod.concatT (oldBranchD ws nc (stagesOf size) k)
            (newBranchD ws nc (stagesOf size) k)) from rfl]
  have hnb : deepcopy_layersS (newBranchD ws nc (stagesOf size) k) nbStr
      = [(.new_block, Discriminator.intermediate_block (k - 1)
          (ws (4 + 3 * (stagesOf size - k))) (ws (4 + 3 * (stagesOf size - k) + 1)))] := rfl
  have hnfr : deepcopy_layersS (newBranchD ws nc (stagesOf size) k) nfrStr
      = [(.new_from_rgb, Discriminator.from_rgb_block nc
          (Discriminator.nf (8 - (k - 1))) (ws (4 + 3 * (stagesOf size - k) + 2)))] := rfl
  dsimp only
  rw [hnb, hnfr]
  simp only [List.getLast?_singleton]
  have hbase2 : deepcopy_exclude
        ([(BName.concat_block,
            TopMod.concatT (oldBranchD ws nc (stagesOf size) k)
              (newBranchD ws nc (stagesOf size) k)),
          (BName.fadein_b, TopMod.fadeinM 0)] ++ canonTailD ws (stagesOf size) k)
        [.concat_block, .fadein_b] = canonTailD ws (stagesOf size) k := by
    simpa [canonTransModelD] using hbase
  rw [hbase2]
  unfold canonStableD canonModelD
  rw [htail, hentry, hfr]
  have hrng : 4 + 3 * (stagesOf size - k) + 3 = 4 + 3 * (stagesOf size - (k - 1)) := by
    omega
  simp [hrng]

/-- The state after `j` grow/flush cycles from discriminator construction. -/
def Discriminator.iter (ws : WStream) (nc size : ℕ) : ℕ → DiscState
  | 0 => Discriminator.init ws nc size
  | j + 1 =>
    (Discriminator.flush_network
      (Discriminator.grow_network ws (Discriminator.iter ws nc size j)).1).1

/-- The (unique) reachable stable discriminator state at stage `k`. -/
def Discriminator.stable (ws : WStream) (nc size k : ℕ) : DiscState :=
  Discriminator.iter ws nc size (stagesOf size - k)

theorem discIter_canon (ws : WStream) (nc size : ℕ) (j : ℕ)
    (h : j ≤ stagesOf size - 1) :
    Discriminator.iter ws nc size j = canonStableD ws nc size (stagesOf size - j) := by
  induction j with
  | zero =>
    unfold Discriminator.iter Discriminator.init canonStableD canonModelD
      canonTailD fromRgbD stageEntryD
    rw [Nat.sub_zero, Nat.sub_self,
      show stagesOf size + 1 - stagesOf size = 1 from by omega,
      show List.range 1 = [0] from rfl]
    simp
  | succ j ih =>
    have hih := ih (by omega)
    have hst : 1 ≤ stagesOf size := by unfold stagesOf; omega
    unfold Discriminator.iter
    rw [hih, grow_canonD ws nc size (stagesOf size - j) (by omega) (by omega),
      flush_transD ws nc size (stagesOf size - j) (by omega) (by omega)]
    rw [show stagesOf size - j - 1 = stagesOf size - (j + 1) from by omega]

theorem discStable_canon (ws : WStream) (nc size k : ℕ) (h1 : 1 ≤ k)
    (h2 : k ≤ stagesOf size) :
    Discriminator.stable ws nc size k = canonStableD ws nc size k := by
  unfold Discriminator.stable
  rw [discIter_canon ws nc size (stagesOf size - k) (by omega)]
  rw [show stagesOf size - (stagesOf size - k) = k from by omega]

/-! ### Registry names of the discriminator -/

theorem canonModelD_names (ws : WStream) (nc stages k : ℕ) :
    (canonModelD ws nc stages k).map Prod.fst
      = .from_rgb
          :: ((List.range (stages + 1 - k)).map fun i => BName.stage (k + i)) := by
  simp [canonModelD, canonTailD]

theorem discNames_nodup (stages k : ℕ) :
    (BName.from_rgb
        :: ((List.range (stages + 1 - k)).map fun i => BName.stage (k + i))).Nodup := by
  rw [List.nodup_cons]
  constructor
  · simp
  · refine List.Nodup.map ?_ (List.nodup_range _)
    intro a b hab
    have : k + a = k + b := by simpa using hab
    omega

theorem ownsParams_stageEntryD (ws : WStream) (stages j : ℕ) :
    ownsParams (.sub (stageEntryD ws stages j)) = true := by
  unfold stageEntryD
  split <;> rfl

theorem ownsParams_fromRgbD (ws : WStream) (nc stages k : ℕ) :
    ownsParams (.sub (fromRgbD ws nc stages k)) = true := by
  unfold fromRgbD
  split <;> rfl

theorem ownsParams_concatD (ws : WStream) (nc stages k : ℕ) :
    ownsParams (.concatT (oldBranchD ws nc stages k) (newBranchD ws nc stages k))
      = true := by
  unfold oldBranchD fromRgbD
  split <;> rfl

theorem canonModelD_module_names (ws : WStream) (nc stages k : ℕ) :
    get_module_names (canonModelD ws nc stages k)
      = .from_rgb
          :: ((List.range (stages + 1 - k)).map fun i => BName.stage (k + i)) := by
  rw [get_module_names_eq _ (by rw [canonModelD_names]; exact discNames_nodup stages k)]
  have : (canonModelD ws nc stages k).filter (fun c => ownsParams c.2)
      = canonModelD ws nc stages k := by
    refine List.filter_eq_self.mpr fun c hc => ?_
    simp only [canonModelD, canonTailD, List.mem_cons, List.mem_map,
      List.mem_range] at hc
    rcases hc with rfl | ⟨i, _, rfl⟩
    · exact ownsParams_fromRgbD ws nc stages k
    · exact ownsParams_stageEntryD ws stages (k + i)
  rw [this, canonModelD_names]

theorem canonTransModelD_names (ws : WStream) (nc stages k : ℕ) :
    (canonTransModelD ws nc stages k).map Prod.fst
      = [.concat_block, .fadein_b]
          ++ ((List.range (stages + 1 - k)).map fun i => BName.stage (k + i)) := by
  simp [canonTransModelD, canonTailD]

theorem transNamesD_nodup (stages k : ℕ) :
    ([BName.concat_block, BName.fadein_b]
        ++ ((List.range (stages + 1 - k)).map fun i => BName.stage (k + i))).Nodup := by
  rw [List.nodup_append]
  refine ⟨by simp, ?_, ?_⟩
  · refine List.Nodup.map ?_ (List.nodup_range _)
    intro a b hab
    have : k + a = k + b := by simpa using hab
    omega
  · intro x hx
    simp only [List.mem_cons, List.mem_singleton] at hx
    rcases hx with rfl | rfl | h
    · simp
    · simp
    · simp at h

theorem canonTransModelD_module_names (ws : WStream) (nc stages k : ℕ) :
    get_module_names (canonTransModelD ws nc stages k)
      = .concat_block
          :: ((List.range (stages + 1 - k)).map fun i => BName.stage (k + i)) := by
  rw [get_module_names_eq _
    (by rw [canonTransModelD_names]; exact transNamesD_nodup stages k)]
  unfold canonTransModelD
  rw [List.filter_append, canonTailD_filter_keep _ _ _ _
    (fun i _ => ownsParams_stageEntryD ws stages (k + i))]
  rw [show List.filter (fun c => ownsParams c.2)
      [(BName.concat_block,
        TopMod.concatT (oldBranchD ws nc stages k) (newBranchD ws nc stages k)),
       (BName.fadein_b, TopMod.fadeinM 0)]
    = [(BName.concat_block,
        TopMod.concatT (oldBranchD ws nc stages k) (newBranchD ws nc stages k))] from by
      simp [List.filter_cons, ownsParams_concatD ws nc stages k]
      rfl]
  simp [canonTailD]

/-! ### Claim C9: round trip of registry naming -/

/-- C9: the ordered block-name list of a reachable stable network is a
function of the stage and target size alone — independent of the weight
stream and of the grow/flush history — and its names are pairwise distinct.
Hence exporting the names in `STABLE(k)`, rebuilding a fresh network at the
same target size and growing/flushing it to stage `k` reproduces the
identical ordered name list, for both generator and discriminator. -/
theorem registry_names_round_trip (ws ws2 : WStream)
    (nc nz size nc2 size2 k m : ℕ)
    (hk1 : 1 ≤ k) (hk2 : k ≤ stagesOf size)
    (hm1 : 1 ≤ m) (hm2 : m ≤ stagesOf size2) :
    (Generator.stable ws nc nz size k).model.map Prod.fst
      = ((List.range k).map fun i => BName.stage (i + 1)) ++ [.to_rgb]
    ∧ ((Generator.stable ws nc nz size k).model.map Prod.fst).Nodup
    ∧ (Discriminator.stable ws2 nc2 size2 m).model.map Prod.fst
      = .from_rgb
          :: ((List.range (stagesOf size2 + 1 - m)).map fun i => BName.stage (m + i))
    ∧ ((Discriminator.stable ws2 nc2 size2 m).model.map Prod.fst).Nodup := by
  rw [genStable_canon ws nc nz size k hk1 hk2,
    discStable_canon ws2 nc2 size2 m hm1 hm2]
  refine ⟨canonModelG_names ws nc nz k, ?_, canonModelD_names ws2 nc2 _ m, ?_⟩
  · show ((canonModelG ws nc nz k).map Prod.fst).Nodup
    rw [canonModelG_names]
    exact stageNames_nodup_to_rgb k
  · show ((canonModelD ws2 nc2 (stagesOf size2) m).map Prod.fst).Nodup
    rw [canonModelD_names]
    exact discNames_nodup _ m

/-- C9 witness: the theorem applied to fresh size-8 networks at stage 1. -/
theorem registry_names_round_trip_witness :
    (Generator.stable ws0 3 512 8 1).model.map Prod.fst
      = ((List.range 1).map fun i => BName.stage (i + 1)) ++ [.to_rgb] :=
  (registry_names_round_trip ws0 ws0 3 512 8 3 8 1 1 (by decide)
    (by rw [stagesOf_8]; decide) (by decide) (by rw [stagesOf_8]; decide)).1

/-! ### Claim C10: `module_names` lists exactly the parameterised blocks -/

/-- C10: after construction, after every grow and after every flush of
either network, the public `module_names` list contains exactly the names of
the top-level registry blocks owning at least one parameter tensor, in
registry insertion order; in particular the parameterless `fadein` block is
part of the executable registry while transitioning but never appears in
`module_names`.  The stable-state conjuncts cover the whole stable range
`1 ≤ k ≤ totalStages` — the freshly constructed state and every post-flush
state, the terminal one included — while the transitioning conjuncts hold
under their own preconditions for growing (generator `k < totalStages`,
discriminator `m ≥ 2`). -/
theorem module_names_track_parameters (ws ws2 : WStream)
    (nc nz size nc2 size2 k m : ℕ)
    (hk1 : 1 ≤ k) (hk2 : k ≤ stagesOf size)
    (hm1 : 1 ≤ m) (hm2 : m ≤ stagesOf size2) :
    (Generator.stable ws nc nz size k).module_names
      = ((Generator.stable ws nc nz size k).model.filter
          fun c => ownsParams c.2).map Prod.fst
    ∧ (k + 1 ≤ stagesOf size →
        ((Generator.grow_network ws (Generator.stable ws nc nz size k)).1).module_names
          = (((Generator.grow_network ws (Generator.stable ws nc nz size k)).1).model.filter
              fun c => ownsParams c.2).map Prod.fst
        ∧ BName.fadein_b
            ∉ ((Generator.grow_network ws (Generator.stable ws nc nz size k)).1).module_names
        ∧ BName.fadein_b
            ∈ ((Generator.grow_network ws
                (Generator.stable ws nc nz size k)).1).model.map Prod.fst)
    ∧ (Discriminator.stable ws2 nc2 size2 m).module_names
      = ((Discriminator.stable ws2 nc2 size2 m).model.filter
          fun c => ownsParams c.2).map Prod.fst
    ∧ (2 ≤ m →
        ((Discriminator.grow_network ws2
            (Discriminator.stable ws2 nc2 size2 m)).1).module_names
          = (((Discriminator.grow_network ws2
              (Discriminator.stable ws2 nc2 size2 m)).1).model.filter
              fun c => ownsParams c.2).map Prod.fst
        ∧ BName.fadein_b
            ∉ ((Discriminator.grow_network ws2
                (Discriminator.stable ws2 nc2 size2 m)).1).module_names
        ∧ BName.fadein_b
            ∈ ((Discriminator.grow_network ws2
                (Discriminator.stable ws2 nc2 size2 m)).1).model.map Prod.fst) := by
  rw [genStable_canon ws nc nz size k hk1 hk2,
    discStable_canon ws2 nc2 size2 m hm1 hm2]
  refine ⟨?_, ?_, ?_, ?_⟩
  · exact get_module_names_eq _ (by rw [canonModelG_names]; exact stageNames_nodup_to_rgb k)
  · intro hk3
    rw [grow_canonG ws nc nz size k hk1 hk3]
    refine ⟨?_, ?_, ?_⟩
    · exact get_module_names_eq _ (by rw [canonTransModelG_names]; exact transNames_nodup k)
    · show BName.fadein_b ∉ get_module_names (canonTransModelG ws nc nz k)
      rw [canonTransModelG_module_names]
      simp
    · show BName.fadein_b ∈ (canonTransModelG ws nc nz k).map Prod.fst
      rw [canonTransModelG_names]
      simp
  · exact get_module_names_eq _
      (by rw [canonModelD_names]; exact discNames_nodup _ m)
  · intro hm3
    rw [grow_canonD ws2 nc2 size2 m hm3 hm2]
    refine ⟨?_, ?_, ?_⟩
    · exact get_module_names_eq _
        (by rw [canonTransModelD_names]; exact transNamesD_nodup _ m)
    · show BName.fadein_b ∉ get_module_names (canonTransModelD ws2 nc2 (stagesOf size2) m)
      rw [canonTransModelD_module_names]
      simp
    · show BName.fadein_b ∈ (canonTransModelD ws2 nc2 (stagesOf size2) m).map Prod.fst
      rw [canonTransModelD_names]
      simp

/-- C10 witness: the theorem applied to a size-8 generator at its terminal
stable stage 2 (covering the post-final-flush state) and a size-8
discriminator at stage 2, with the discriminator's transitioning implication
exercised as well. -/
theorem module_names_track_parameters_witness :
    (Generator.stable ws0 3 512 8 2).module_names
      = ((Generator.stable ws0 3 512 8 2).model.filter
          fun c => ownsParams c.2).map Prod.fst
    ∧ BName.fadein_b
        ∉ ((Discriminator.grow_network ws0
            (Discriminator.stable ws0 3 8 2)).1).module_names := by
  have h := module_names_track_parameters ws0 ws0 3 512 8 3 8 2 2 (by decide)
    (by rw [stagesOf_8]) (by decide) (by rw [stagesOf_8])
  exact ⟨h.1, (h.2.2.2 (by decide)).2.1⟩

/-! ### Claim C3: the stage-bound invariant across grow/flush sequences -/

theorem stagesOf_4 : stagesOf 4 = 1 := by
  have h := stagesOf_two_pow 0
  norm_num at h
  exact h

/-- C3 counterexample: on a freshly built size-4 generator
(`totalStages = 1`) the grow precondition fails, but `current_stage` was
already incremented past the bound when the assert fired: after the failing
call the state satisfies `current_stage = 2 > 1 = totalStages`, so the
failure is not local and the claimed invariant is violated. -/
theorem failing_grow_violates_invariant :
    (Generator.grow_network ws0 (Generator.init ws0 3 512 4)).2 = false
    ∧ (Generator.grow_network ws0 (Generator.init ws0 3 512 4)).1.current_stage = 2
    ∧ (Generator.grow_network ws0 (Generator.init ws0 3 512 4)).1.stages = 1 := by
  unfold Generator.grow_network Generator.init
  rw [stagesOf_4]
  norm_num

/-- An operation request on a growth state machine. -/
inductive NetOp where
  | growOp
  | flushOp

/-- Run a sequence of grow/flush calls, stopping (with `none`) at the first
call that raises. -/
def Generator.runOk (ws : WStream) : List NetOp → GenState → Option GenState
  | [], s => some s
  | op :: ops, s =>
    let r := match op with
      | NetOp.growOp => Generator.grow_network ws s
      | NetOp.flushOp => Generator.flush_network s
    if r.2 then Generator.runOk ws ops r.1 else none

/-- Run a sequence of grow/flush calls on a discriminator. -/
def Discriminator.runOk (ws : WStream) : List NetOp → DiscState → Option DiscState
  | [], s => some s
  | op :: ops, s =>
    let r := match op with
      | NetOp.growOp => Discriminator.grow_network ws s
      | NetOp.flushOp => Discriminator.flush_network s
    if r.2 then Discriminator.runOk ws ops r.1 else none

theorem growG_fields (ws : WStream) (s : GenState) :
    (Generator.grow_network ws s).1.current_stage = s.current_stage + 1
    ∧ (Generator.grow_network ws s).1.stages = s.stages := by
  unfold Generator.grow_network
  constructor <;> (repeat' first | split | dsimp only)

theorem growG_success_bound (ws : WStream) (s : GenState)
    (h : (Generator.grow_network ws s).2 = true) :
    s.current_stage + 1 ≤ s.stages := by
  unfold Generator.grow_network at h
  repeat' first | split at h | dsimp only at h
  all_goals first | omega | (exfalso; simp at h)

theorem growG_fail_state (ws : WStream) (s : GenState)
    (h : (Generator.grow_network ws s).2 = false) :
    (Generator.grow_network ws s).1 = { s with current_stage := s.current_stage + 1 } := by
  obtain ⟨r, hr⟩ : ∃ r, Generator.grow_network ws s = r := ⟨_, rfl⟩
  rw [hr] at h ⊢
  unfold Generator.grow_network at hr
  repeat' first | split at hr | dsimp only at hr
  all_goals rw [← hr] at h ⊢
  all_goals first | rfl | simp at h

theorem flushG_fields (s : GenState) :
    (Generator.flush_network s).1.current_stage = s.current_stage
    ∧ (Generator.flush_network s).1.stages = s.stages := by
  unfold Generator.flush_network
  constructor <;> (repeat' first | split | dsimp only)

theorem flushG_fail_state (s : GenState)
    (h : (Generator.flush_network s).2 = false) :
    (Generator.flush_network s).1 = s := by
  obtain ⟨r, hr⟩ : ∃ r, Generator.flush_network s = r := ⟨_, rfl⟩
  rw [hr] at h ⊢
  unfold Generator.flush_network at hr
  repeat' first | split at hr | dsimp only at hr
  all_goals rw [← hr] at h ⊢
  all_goals first | rfl | simp at h

theorem growD_fields (ws : WStream) (s : DiscState) :
    (Discriminator.grow_network ws s).1.current_stage = s.current_stage - 1
    ∧ (Discriminator.grow_network ws s).1.stages = s.stages := by
  unfold Discriminator.grow_network
  constructor <;> (repeat' first | split | dsimp only)

theorem growD_success_bound (ws : WStream) (s : DiscState)
    (h : (Discriminator.grow_network ws s).2 = true) :
    1 ≤ s.current_stage - 1 := by
  unfold Discriminator.grow_network at h
  repeat' first | split at h | dsimp only at h
  all_goals first | omega | (exfalso; simp at h)

theorem growD_fail_state (ws : WStream) (s : DiscState)
    (h : (Discriminator.grow_network ws s).2 = false) :
    (Discriminator.grow_network ws s).1
      = { s with current_stage := s.current_stage - 1 } := by
  obtain ⟨r, hr⟩ : ∃ r, Discriminator.grow_network ws s = r := ⟨_, rfl⟩
  rw [hr] at h ⊢
  unfold Discriminator.grow_network at hr
  repeat' first | split at hr | dsimp only at hr
  all_goals rw [← hr] at h ⊢
  all_goals first | rfl | simp at h

theorem flushD_fields (s : DiscState) :
    (Discriminator.flush_network s).1.current_stage = s.current_stage
    ∧ (Discriminator.flush_network s).1.stages = s.stages := by
  unfold Discriminator.flush_network
  constructor <;> (repeat' first | split | dsimp only)

theorem flushD_fail_state (s : DiscState)
    (h : (Discriminator.flush_network s).2 = false) :
    (Discriminator.flush_network s).1 = s := by
  obtain ⟨r, hr⟩ : ∃ r, Discriminator.flush_network s = r := ⟨_, rfl⟩
  rw [hr] at h ⊢
  unfold Discriminator.flush_network at hr
  repeat' first | split at hr | dsimp only at hr
  all_goals rw [← hr] at h ⊢
  all_goals first | rfl | simp at h

theorem runOkG_inv (ws : WStream) (ops : List NetOp) :
    ∀ s0 s : GenState, 1 ≤ s0.current_stage → s0.current_stage ≤ s0.stages →
      Generator.runOk ws ops s0 = some s →
      1 ≤ s.current_stage ∧ s.current_stage ≤ s.stages := by
  induction ops with
  | nil =>
    intro s0 s h1 h2 h
    obtain rfl : s0 = s := by simpa [Generator.runOk] using h
    exact ⟨h1, h2⟩
  | cons op ops ih =>
    intro s0 s h1 h2 h
    unfold Generator.runOk at h
    cases op with
    | growOp =>
      simp only at h
      by_cases hr : (Generator.grow_network ws s0).2
      · rw [if_pos hr] at h
        refine ih _ s ?_ ?_ h
        · rw [(growG_fields ws s0).1]
          omega
        · rw [(growG_fields ws s0).1, (growG_fields ws s0).2]
          exact growG_success_bound ws s0 hr
      · rw [if_neg hr] at h
        simp at h
    | flushOp =>
      simp only at h
      by_cases hr : (Generator.flush_network s0).2
      · rw [if_pos hr] at h
        refine ih _ s ?_ ?_ h
        · rw [(flushG_fields s0).1]
          exact h1
        · rw [(flushG_fields s0).1, (flushG_fields s0).2]
          exact h2
      · rw [if_neg hr] at h
        simp at h

theorem runOkD_inv (ws : WStream) (ops : List NetOp) :
    ∀ s0 s : DiscState, 1 ≤ s0.current_stage → s0.current_stage ≤ s0.stages →
      Discriminator.runOk ws ops s0 = some s →
      1 ≤ s.current_stage ∧ s.current_stage ≤ s.stages := by
  induction ops with
  | nil =>
    intro s0 s h1 h2 h
    obtain rfl : s0 = s := by simpa [Discriminator.runOk] using h
    exact ⟨h1, h2⟩
  | cons op ops ih =>
    intro s0 s h1 h2 h
    unfold Discriminator.runOk at h
    cases op with
    | growOp =>
      simp only at h
      by_cases hr : (Discriminator.grow_network ws s0).2
      · rw [if_pos hr] at h
        refine ih _ s ?_ ?_ h
        · rw [(growD_fields ws s0).1]
          exact growD_success_bound ws s0 hr
        · rw [(growD_fields ws s0).1, (growD_fields ws s0).2]
          omega
      · rw [if_neg hr] at h
        simp at h
    | flushOp =>
      simp only at h
      by_cases hr : (Discriminator.flush_network s0).2
      · rw [if_pos hr] at h
        refine ih _ s ?_ ?_ h
        · rw [(flushD_fields s0).1]
          exact h1
        · rw [(flushD_fields s0).1, (flushD_fields s0).2]
          exact h2
      · rw [if_neg hr] at h
        simp at h

/-- C3 (amended): the invariant `1 ≤ currentStage ≤ totalStages` holds after
construction and after every sequence of *successful* grow/flush calls on
either network, and a failing flush leaves the state unchanged — but a
failing grow is not local to itself: it leaves `current_stage` one step past
the bound (incremented for the generator, decremented for the discriminator)
because the counter is mutated before the precondition assert. -/
theorem stage_invariant_amended (ws ws2 : WStream) (nc nz size nc2 size2 : ℕ)
    (ops ops2 : List NetOp) (s : GenState) (d : DiscState)
    (hs : Generator.runOk ws ops (Generator.init ws nc nz size) = some s)
    (hd : Discriminator.runOk ws2 ops2 (Discriminator.init ws2 nc2 size2) = some d) :
    (1 ≤ s.current_stage ∧ s.current_stage ≤ s.stages)
    ∧ (1 ≤ d.current_stage ∧ d.current_stage ≤ d.stages)
    ∧ (∀ t : GenState, (Generator.grow_network ws t).2 = false →
        (Generator.grow_network ws t).1
          = { t with current_stage := t.current_stage + 1 })
    ∧ (∀ t : GenState, (Generator.flush_network t).2 = false →
        (Generator.flush_network t).1 = t)
    ∧ (∀ t : DiscState, (Discriminator.grow_network ws2 t).2 = false →
        (Discriminator.grow_network ws2 t).1
          = { t with current_stage := t.current_stage - 1 })
    ∧ (∀ t : DiscState, (Discriminator.flush_network t).2 = false →
        (Discriminator.flush_network t).1 = t) := by
  have hg1 : 1 ≤ (Generator.init ws nc nz size).current_stage := le_refl 1
  have hg2 : (Generator.init ws nc nz size).current_stage
      ≤ (Generator.init ws nc nz size).stages := by
    show 1 ≤ stagesOf size
    unfold stagesOf
    omega
  have hd1 : 1 ≤ (Discriminator.init ws2 nc2 size2).current_stage := by
    show 1 ≤ stagesOf size2
    unfold stagesOf
    omega
  have hd2 : (Discriminator.init ws2 nc2 size2).current_stage
      ≤ (Discriminator.init ws2 nc2 size2).stages := le_refl _
  exact ⟨runOkG_inv ws ops _ s hg1 hg2 hs, runOkD_inv ws2 ops2 _ d hd1 hd2 hd,
    fun t => growG_fail_state ws t, fun t => flushG_fail_state t,
    fun t => growD_fail_state ws2 t, fun t => flushD_fail_state t⟩

/-- C3 witness: the amended theorem applied to the concrete trace
`[grow, flush]` on a size-8 generator and `[grow, flush]` on a size-8
discriminator, the `runOk` hypotheses discharged by `rfl` on the evaluated
traces. -/
theorem stage_invariant_amended_witness :
    1 ≤ (Generator.iter ws0 3 512 8 1).current_stage
    ∧ (Generator.iter ws0 3 512 8 1).current_stage
        ≤ (Generator.iter ws0 3 512 8 1).stages := by
  have h := stage_invariant_amended ws0 ws0 3 512 8 3 8
    [NetOp.growOp, NetOp.flushOp] [NetOp.growOp, NetOp.flushOp]
    (Generator.iter ws0 3 512 8 1)
    (Discriminator.iter ws0 3 8 1) ?_ ?_
  · exact h.1
  · show Generator.runOk ws0 [NetOp.growOp, NetOp.flushOp]
      (Generator.init ws0 3 512 8) = some (Generator.iter ws0 3 512 8 1)
    have hg := grow_canonG ws0 3 512 8 1 (by decide) (by rw [stagesOf_8])
    have hgs := genIter_canon ws0 3 512 8 0 (by rw [stagesOf_8]; omega)
    have hf := flush_transG ws0 3 512 8 1 (by decide)
    have h0 : Generator.init ws0 3 512 8 = canonStableG ws0 3 512 8 1 := by
      simpa [Generator.iter] using hgs
    rw [show Generator.iter ws0 3 512 8 1
        = (Generator.flush_network
            (Generator.grow_network ws0 (Generator.init ws0 3 512 8)).1).1 from rfl,
      h0]
    simp [Generator.runOk, hg, hf]
  · show Discriminator.runOk ws0 [NetOp.growOp, NetOp.flushOp]
      (Discriminator.init ws0 3 8) = some (Discriminator.iter ws0 3 8 1)
    have h0 : Discriminator.init ws0 3 8 = canonStableD ws0 3 8 (stagesOf 8) := by
      have := discIter_canon ws0 3 8 0 (by omega)
      simpa [Discriminator.iter] using this
    have hg := grow_canonD ws0 3 8 (stagesOf 8) (by rw [stagesOf_8]) (le_refl _)
    have hf := flush_transD ws0 3 8 (stagesOf 8) (by rw [stagesOf_8]) (le_refl _)
    rw [show Discriminator.iter ws0 3 8 1
        = (Discriminator.flush_network
            (Discriminator.grow_network ws0 (Discriminator.init ws0 3 8)).1).1 from rfl,
      h0]
    simp [Discriminator.runOk, hg, hf]
